import Mathlib

/-
  Verification of the request-admission and cost-governance core of the
  claude-code-hub proxy gateway.

  This file shallowly embeds the in-memory cache store (sorted sets plus a
  TTL-aware string map), the rolling-window cost scripts, the session
  tracker, the rate-limit service facade, the endpoint health tracker, the
  endpoint selector and the cost-multiplier engine, and proves or refutes
  the frozen specification claims about them.

  Conventions of the embedding:
  * JS numbers holding timestamps, scores, ids and dollar amounts are
    modelled as `Int`; money amounts are integral in the model.
  * JS strings are Lean `String`s; the member encoding `${ts}:${cost}` of
    the rolling-window sorted sets is reproduced verbatim (decimal digits,
    optional leading minus, a separating colon), together with the
    `parseFloat`-style read-back used by `parseCostFromMember`.
  * `Date.now()` is passed explicitly as a `now : Int` argument.
  * async/mutex wrappers are dropped: every operation is atomic by
    construction, which is exactly what the mutexes guarantee.
-/

namespace Hub

/-! ### Decimal digit encoding of JS numbers

`InMemoryZSet` members are built in JS as the template string
`${nowMs}:${cost}` and read back with `parseFloat` after the first colon.
We reproduce this with an executable decimal printer and parser. -/
/-- The decimal digit character for a digit value 0..9 (other inputs map to '9'). -/
def digitChar (d : Nat) : Char :=
  match d with
  | 0 => '0' | 1 => '1' | 2 => '2' | 3 => '3' | 4 => '4'
  | 5 => '5' | 6 => '6' | 7 => '7' | 8 => '8' | _ => '9'

/-- Digit value of a character, `none` when it is not a decimal digit. -/
def charDigit? (c : Char) : Option Nat :=
  if 48 ≤ c.toNat ∧ c.toNat ≤ 57 then some (c.toNat - 48) else none

/-- Big-endian decimal digits of `n`, empty for 0; fuel-structured so the
kernel can evaluate it. Fuel `n` itself is always sufficient. -/
def natToCharsAux : Nat → Nat → List Char
  | 0, _ => []
  | _ + 1, 0 => []
  | fuel + 1, n + 1 =>
      natToCharsAux fuel ((n + 1) / 10) ++ [digitChar ((n + 1) % 10)]

/-- JS `String(n)` for a natural number. -/
def natToChars (n : Nat) : List Char :=
  if n = 0 then ['0'] else natToCharsAux n n

/-- JS `String(i)` for an integer. -/
def intToChars (i : Int) : List Char :=
  if i < 0 then '-' :: natToChars i.natAbs else natToChars i.toNat

/-- Accumulating decimal reader: `goParse a cs` reads the digits `cs`
extending the already-read prefix value `a`; `none` on a non-digit. -/
def goParse (acc : Nat) : List Char → Option Nat
  | [] => some acc
  | c :: cs =>
      match charDigit? c with
      | some d => goParse (10 * acc + d) cs
      | none => none

/-- Parse a non-empty all-digit character list as a natural number. -/
def parseNatChars? : List Char → Option Nat
  | [] => none
  | c :: cs => goParse 0 (c :: cs)

/-- Parse an optionally minus-signed decimal integer. -/
def parseIntChars? : List Char → Option Int
  | [] => none
  | c :: cs =>
      if c = '-' then (parseNatChars? cs).map (fun n => -(Int.ofNat n))
      else (parseNatChars? (c :: cs)).map Int.ofNat

/-! ### The `${ts}:${cost}` member encoding -/
/-- Split a character list at its first colon. -/
def splitFirstColon : List Char → Option (List Char × List Char)
  | [] => none
  | c :: cs =>
      if c = ':' then some ([], cs)
      else
        match splitFirstColon cs with
        | none => none
        | some (a, b) => some (c :: a, b)

/-- The member string `${nowMs}:${cost}` inserted by the rolling-window
track scripts. -/
def encodeMemberChars (ts cost : Int) : List Char :=
  intToChars ts ++ ':' :: intToChars cost

def encodeMember (ts cost : Int) : String :=
  String.mk (encodeMemberChars ts cost)

/-- `parseCostFromMember` of `session-tracker.ts`: take everything after the
first colon and read it numerically, 0 when absent or unreadable. -/
def parseCostFromMember (m : String) : Int :=
  match splitFirstColon m.data with
  | none => 0
  | some (_, rest) => (parseIntChars? rest).getD 0

/-- The caller-side `parseFloat(result || "0")` applied to the integral
strings our scripts return. -/
def jsParseFloatInt (s : String) : Int :=
  (parseIntChars? s.data).getD 0

def intToString (i : Int) : String :=
  String.mk (intToChars i)

/-! ### Association lists modelling JS `Map`

`InMemoryZSet.data` is a `Map<string, Map<string, number>>` and
`InMemoryMap.data` a `Map<string, CacheEntry>`; both preserve insertion
order. We model a `Map` as an association list in insertion order. -/
/-- JS `Map.get`. -/
def afind {α : Type} : List (String × α) → String → Option α
  | [], _ => none
  | (k', v) :: rest, k => if k' = k then some v else afind rest k

/-- JS `Map.set`: overwrite in place when the key is present, else append. -/
def aset {α : Type} : List (String × α) → String → α → List (String × α)
  | [], k, v => [(k, v)]
  | (k', v') :: rest, k, v =>
      if k' = k then (k, v) :: rest else (k', v') :: aset rest k v

/-- JS `Map.delete` (a `Map` holds each key at most once, so removing every
occurrence is equivalent). -/
def adel {α : Type} : List (String × α) → String → List (String × α)
  | [], _ => []
  | (k', v') :: rest, k =>
      if k' = k then adel rest k else (k', v') :: adel rest k

/-! ### JS stable sort

`Array.prototype.sort` with a numeric comparator is stable; we model it as
a stable insertion sort by an integral sort key. -/
/-- Insert `x` into `l`, placing it before the first strictly greater
element; elements with an equal key keep their original relative order. -/
def jsInsert {α : Type} (k : α → Int) (x : α) : List α → List α
  | [] => [x]
  | y :: ys => if k x < k y then x :: y :: ys else y :: jsInsert k x ys

/-- Stable sort ascending by `k`, processing the array left to right. -/
def jsSortBy {α : Type} (k : α → Int) (l : List α) : List α :=
  l.foldl (fun acc x => jsInsert k x acc) []

/-! ### The in-memory store

`InMemoryStore` couples an `InMemoryZSet` (no TTL support of any kind) with
an `InMemoryMap` (string entries with optional expiry). `status` is the
`"ready" | "connecting" | "end"` connection field, always `"ready"` for a
live store. -/
/-- Sorted-set content of one key: member → score in insertion order. -/
abbrev ZEntries := List (String × Int)

/-- `CacheEntry` of `map.ts`: a string value with optional expiry instant. -/
structure StrEntry where
  value : String
  expiry : Option Int
  deriving DecidableEq, Repr

/-- The `"ready" | "connecting" | "end"` status string, `ended` for `"end"`. -/
inductive StoreStatus
  | ready
  | connecting
  | ended
  deriving DecidableEq, Repr

structure Store where
  zsets : List (String × ZEntries)
  strs : List (String × StrEntry)
  status : StoreStatus
  deriving DecidableEq, Repr

def emptyStore : Store := ⟨[], [], StoreStatus.ready⟩

namespace Store

/-- `InMemoryZSet.zadd`: add or update a member, 1 when newly added. -/
def zadd (s : Store) (key : String) (score : Int) (member : String) :
    Int × Store :=
  let zset := (afind s.zsets key).getD []
  let isNew := (afind zset member).isNone
  let zset' := aset zset member score
  ((if isNew then 1 else 0), { s with zsets := aset s.zsets key zset' })

/-- `InMemoryZSet.zrange` (member-only form): sort by score ascending,
slice with JS negative-index handling, return the members. -/
def zrange (s : Store) (key : String) (start stop : Int) : List String :=
  match afind s.zsets key with
  | none => []
  | some zset =>
      if zset.length = 0 then []
      else
        let entries := jsSortBy (fun e => e.2) zset
        let len : Int := entries.length
        let startIdx := if start < 0 then max 0 (len + start) else start
        let stopIdx := if stop < 0 then len + stop else stop
        let endIdx := min (stopIdx + 1) len
        ((entries.take endIdx.toNat).drop startIdx.toNat).map (fun e => e.1)

/-- Score bound check of `zremrangebyscore`; `none` as the lower bound
models the `-Infinity` every call site passes. -/
def zScoreInRange (min? : Option Int) (max : Int) (e : String × Int) : Bool :=
  (match min? with
   | none => true
   | some m => decide (m ≤ e.2)) && decide (e.2 ≤ max)

/-- `InMemoryZSet.zremrangebyscore`: remove members scored in
`[min, max]`, dropping the key entirely when the set empties. -/
def zremrangebyscore (s : Store) (key : String) (min? : Option Int)
    (max : Int) : Int × Store :=
  match afind s.zsets key with
  | none => (0, s)
  | some zset =>
      if zset.length = 0 then (0, s)
      else
        let removed : Int := (zset.filter (zScoreInRange min? max)).length
        let zset' := zset.filter (fun e => !(zScoreInRange min? max e))
        if zset'.length = 0 then
          (removed, { s with zsets := adel s.zsets key })
        else (removed, { s with zsets := aset s.zsets key zset' })

/-- `InMemoryZSet.zcard`. -/
def zcard (s : Store) (key : String) : Int :=
  ((afind s.zsets key).getD []).length

/-- `InMemoryZSet.zscore`. -/
def zscore (s : Store) (key : String) (member : String) : Option Int :=
  (afind s.zsets key).bind (fun z => afind z member)

/-- `InMemoryMap.isExpired`. -/
def isExpired (e : StrEntry) (now : Int) : Bool :=
  match e.expiry with
  | some x => decide (x ≤ now)
  | none => false

/-- `InMemoryMap.get`: expired entries read as absent and are deleted. -/
def get (s : Store) (key : String) (now : Int) : Option String × Store :=
  match afind s.strs key with
  | none => (none, s)
  | some e =>
      if isExpired e now then (none, { s with strs := adel s.strs key })
      else (some e.value, s)

/-- `InMemoryMap.setex`. -/
def setex (s : Store) (key : String) (seconds : Int) (value : String)
    (now : Int) : Store :=
  { s with strs := aset s.strs key ⟨value, some (now + seconds * 1000)⟩ }

/-- `InMemoryMap.exists` for a single key: 1 when a non-expired string
entry is present. Note that it consults only the string map, never the
sorted-set store. -/
def existsKey (s : Store) (key : String) (now : Int) : Int :=
  match afind s.strs key with
  | none => 0
  | some e => if isExpired e now then 0 else 1

/-- `InMemoryMap.expire`: re-arm the TTL of an existing, live string
entry; 0 when the key is not in the string map. -/
def expire (s : Store) (key : String) (seconds : Int) (now : Int) :
    Int × Store :=
  match afind s.strs key with
  | none => (0, s)
  | some e =>
      if isExpired e now then (0, { s with strs := adel s.strs key })
      else
        (1, { s with strs := aset s.strs key ⟨e.value, some (now + seconds * 1000)⟩ })

/-- `InMemoryMap.incrbyfloat` (integral in this model). -/
def incrbyfloat (s : Store) (key : String) (inc : Int) (now : Int) :
    String × Store :=
  let cur : Int × Option Int :=
    match afind s.strs key with
    | some e =>
        if isExpired e now then (0, none)
        else ((parseIntChars? e.value.data).getD 0, e.expiry)
    | none => (0, none)
  let v := cur.1 + inc
  (intToString v, { s with strs := aset s.strs key ⟨intToString v, cur.2⟩ })

end Store

/-! ### Sorted-set contents of a key, and how each operation acts on them

`zentries s key` is the member/score list a key holds (`[]` when absent).
Every script-level fact factors through these lemmas. -/

def zentries (s : Store) (key : String) : ZEntries :=
  (afind s.zsets key).getD []

/-! ### Window scripts (`scripts/session-tracker.ts`, rolling-window part)

Each script is one critical section; the mutex is modelled by the scripts
being single Lean functions. -/
/-- `calculateTotalCost`: sum of the parsed cost component of all members. -/
def calculateTotalCost (s : Store) (key : String) : Int :=
  ((Store.zrange s key 0 (-1)).map parseCostFromMember).sum

/-- `TRACK_COST_5H_ROLLING_WINDOW`: trim members scored `≤ nowMs − windowMs`,
insert `${nowMs}:${cost}` at score `nowMs`, return the summed window. -/
def trackCost5hRollingWindow (s : Store) (key : String) (cost : Int)
    (nowMs : Int) (windowMs : Int := 18000000) : String × Store :=
  let s1 := (Store.zremrangebyscore s key none (nowMs - windowMs)).2
  let s2 := (Store.zadd s1 key nowMs (encodeMember nowMs cost)).2
  (intToString (calculateTotalCost s2 key), s2)

/-- `GET_COST_5H_ROLLING_WINDOW`: trim, then sum, without inserting. -/
def getCost5hRollingWindow (s : Store) (key : String) (nowMs : Int)
    (windowMs : Int := 18000000) : String × Store :=
  let s1 := (Store.zremrangebyscore s key none (nowMs - windowMs)).2
  (intToString (calculateTotalCost s1 key), s1)

/-- `TRACK_COST_DAILY_ROLLING_WINDOW` (same body, 24h default window). -/
def trackCostDailyRollingWindow (s : Store) (key : String) (cost : Int)
    (nowMs : Int) (windowMs : Int := 86400000) : String × Store :=
  let s1 := (Store.zremrangebyscore s key none (nowMs - windowMs)).2
  let s2 := (Store.zadd s1 key nowMs (encodeMember nowMs cost)).2
  (intToString (calculateTotalCost s2 key), s2)

/-- `GET_COST_DAILY_ROLLING_WINDOW`. -/
def getCostDailyRollingWindow (s : Store) (key : String) (nowMs : Int)
    (windowMs : Int := 86400000) : String × Store :=
  let s1 := (Store.zremrangebyscore s key none (nowMs - windowMs)).2
  (intToString (calculateTotalCost s1 key), s1)

/-! ### `CHECK_AND_TRACK_SESSION` (`scripts/session-tracker.ts`) -/

structure SessionTrackResult where
  allowed : Bool
  currentCount : Int
  tracked : Bool
  deriving DecidableEq, Repr

/-- `checkAndTrackSession`: one atomic trim / membership check / limit
check / upsert over the provider's active-session sorted set. -/
def checkAndTrackSession (s : Store) (providerKey sessionId : String)
    (limit : Int) (now : Int) : SessionTrackResult × Store :=
  let fiveMinutesAgo := now - 300000
  let s1 := (Store.zremrangebyscore s providerKey none fiveMinutesAgo).2
  let isTracked := (Store.zscore s1 providerKey sessionId).isSome
  let currentCount := Store.zcard s1 providerKey
  if limit > 0 ∧ ¬isTracked ∧ currentCount ≥ limit then
    (⟨false, currentCount, false⟩, s1)
  else
    let s2 := (Store.zadd s1 providerKey now sessionId).2
    if isTracked then (⟨true, currentCount, false⟩, s2)
    else (⟨true, currentCount + 1, true⟩, s2)

/-- What `checkAndTrackSession` does to the contents of the provider key,
expressed purely on member/score lists. -/
def pureCheckTrack (E : ZEntries) (sessionId : String) (limit now : Int) :
    SessionTrackResult × ZEntries :=
  let E1 := E.filter (fun e => decide (now - 300000 < e.2))
  let isTracked := (afind E1 sessionId).isSome
  let cnt : Int := E1.length
  if limit > 0 ∧ ¬isTracked ∧ cnt ≥ limit then (⟨false, cnt, false⟩, E1)
  else
    let E2 := aset E1 sessionId now
    if isTracked then (⟨true, cnt, false⟩, E2)
    else (⟨true, cnt + 1, true⟩, E2)

/-! ### Rolling-window correctness (claims C1 and C9)

A cost event is a `(timestamp, cost)` pair; tracking it inserts the sorted
set entry `(encodeMember t c, t)`. -/

def eventEntry (e : Int × Int) : String × Int :=
  (encodeMember e.1 e.2, e.1)

/-- Record each event through `trackCost5hRollingWindow` at its own
timestamp, left to right. -/
def foldTrack (key : String) (W : Int) (s : Store) (events : List (Int × Int)) :
    Store :=
  events.foldl (fun st e => (trackCost5hRollingWindow st key e.2 e.1 W).2) s

/-! ### Sequenced admission (claim C2) -/
/-- Run a sequence of `checkAndTrackSession` calls, each `(sessionId, now)`
pair in order, collecting the results. -/
def runCheckTrack (key : String) (limit : Int) :
    Store → List (String × Int) → List SessionTrackResult × Store
  | s, [] => ([], s)
  | s, c :: rest =>
      let r := checkAndTrackSession s key c.1 limit c.2
      let next := runCheckTrack key limit r.2 rest
      (r.1 :: next.1, next.2)

/-! ### Rate Limit Service (`RateLimitService`)

The durable repository (`sumKeyCostInTimeRange` / `sumProviderCostInTimeRange`)
and the `time-utils` module are not part of the source tree.
Modelled from the spec: the repository's cost-sum-in-range queries are an
opaque per-period aggregate `db : CostPeriod → Int`, and
`getTTLForPeriodWithMode` an opaque `ttl : CostPeriod → Int`. -/

inductive CostPeriod
  | p5h
  | daily
  | weekly
  | monthly
  deriving DecidableEq, Repr

inductive DailyResetMode
  | fixed
  | rolling
  deriving DecidableEq, Repr

/-- One entry of the `costLimits` array built by `checkCostLimits`. -/
structure CostLimit where
  amount : Option Int
  period : CostPeriod
  name : String
  resetTime : Option String
  resetMode : Option DailyResetMode
  deriving DecidableEq, Repr

/-- The `limits` argument of `checkCostLimits`. -/
structure LimitsInput where
  limit_5h_usd : Option Int
  limit_daily_usd : Option Int
  daily_reset_time : Option String
  daily_reset_mode : Option DailyResetMode
  limit_weekly_usd : Option Int
  limit_monthly_usd : Option Int
  deriving DecidableEq, Repr

structure CheckResult where
  allowed : Bool
  reason : Option String
  deriving DecidableEq, Repr

/-- Modelled from the spec: `normalizeResetTime` of the absent
`time-utils.ts`; missing reset times default to midnight `"00:00"`. -/
def normalizeResetTime (rt : Option String) : String := rt.getD "00:00"

/-- `normalized.replace(":", "")` — `"HH:mm"` → `"HHmm"`. -/
def resetSuffix (normalized : String) : String :=
  String.mk (normalized.data.filter (fun c => !(c = ':')))

def periodStr : CostPeriod → String
  | CostPeriod.p5h => "5h"
  | CostPeriod.daily => "daily"
  | CostPeriod.weekly => "weekly"
  | CostPeriod.monthly => "monthly"

/-- `${type}:${id}:cost_${suffix}`. -/
def costKey (tyStr : String) (id : Int) (suffix : String) : String :=
  tyStr ++ ":" ++ intToString id ++ ":cost_" ++ suffix

def window5h : Int := 5 * 60 * 60 * 1000

def window24h : Int := 24 * 60 * 60 * 1000

/-- The `costLimits` array of `checkCostLimits`, in source order
(display names are ASCII stand-ins for the Chinese originals). -/
def buildCostLimits (limits : LimitsInput) : List CostLimit :=
  [ { amount := limits.limit_5h_usd, period := CostPeriod.p5h, name := "5h",
      resetTime := none, resetMode := none },
    { amount := limits.limit_daily_usd, period := CostPeriod.daily, name := "daily",
      resetTime := some (normalizeResetTime limits.daily_reset_time),
      resetMode := some (limits.daily_reset_mode.getD DailyResetMode.fixed) },
    { amount := limits.limit_weekly_usd, period := CostPeriod.weekly, name := "weekly",
      resetTime := none, resetMode := none },
    { amount := limits.limit_monthly_usd, period := CostPeriod.monthly, name := "monthly",
      resetTime := none, resetMode := none } ]

/-- Cache warming inside `checkCostLimitsFromDatabase`: write the durable
aggregate back (rolling windows through the track scripts, the rest via
`setex` with the period TTL). -/
def warmCache (s : Store) (tyStr : String) (id : Int) (l : CostLimit)
    (current : Int) (ttl : CostPeriod → Int) (now : Int) : Store :=
  if l.period = CostPeriod.p5h then
    if current > 0 then
      (trackCost5hRollingWindow s (costKey tyStr id "5h_rolling") current now window5h).2
    else s
  else if l.period = CostPeriod.daily ∧ l.resetMode = some DailyResetMode.rolling then
    if current > 0 then
      (trackCostDailyRollingWindow s (costKey tyStr id "daily_rolling") current now window24h).2
    else s
  else
    let suffix := resetSuffix (normalizeResetTime l.resetTime)
    let periodKey :=
      if l.period = CostPeriod.daily then "daily_" ++ suffix else periodStr l.period
    Store.setex s (costKey tyStr id periodKey) (ttl l.period) (intToString current) now

/-- `checkCostLimitsFromDatabase`: per limit, query the durable aggregate,
warm the cache when it is ready, reject on the first exceeded limit. -/
def checkCostLimitsFromDatabase (db ttl : CostPeriod → Int) (tyStr : String)
    (id : Int) (now : Int) :
    Option Store → List CostLimit → CheckResult × Option Store
  | client, [] => ({ allowed := true, reason := none }, client)
  | client, l :: rest =>
      if l.amount.getD 0 ≤ 0 then
        checkCostLimitsFromDatabase db ttl tyStr id now client rest
      else
        let current := db l.period
        let client' :=
          match client with
          | some s =>
              if s.status = StoreStatus.ready then
                some (warmCache s tyStr id l current ttl now)
              else some s
          | none => none
        if current ≥ l.amount.getD 0 then
          ({ allowed := false, reason := some l.name }, client')
        else checkCostLimitsFromDatabase db ttl tyStr id now client' rest

/-- The ready-cache loop of `checkCostLimits`. `allLimits` is the full
`costLimits` array handed to the database fallback on a detected miss. -/
def checkCostLimitsLoop (db ttl : CostPeriod → Int) (tyStr : String) (id : Int)
    (now : Int) (allLimits : List CostLimit) :
    Store → List CostLimit → CheckResult × Option Store
  | s, [] => ({ allowed := true, reason := none }, some s)
  | s, l :: rest =>
      if l.amount.getD 0 ≤ 0 then
        checkCostLimitsLoop db ttl tyStr id now allLimits s rest
      else if l.period = CostPeriod.p5h then
        let key := costKey tyStr id "5h_rolling"
        let r := getCost5hRollingWindow s key now window5h
        let current := jsParseFloatInt r.1
        if current = 0 ∧ Store.existsKey r.2 key now = 0 then
          checkCostLimitsFromDatabase db ttl tyStr id now (some r.2) allLimits
        else if current ≥ l.amount.getD 0 then
          ({ allowed := false, reason := some l.name }, some r.2)
        else checkCostLimitsLoop db ttl tyStr id now allLimits r.2 rest
      else if l.period = CostPeriod.daily ∧ l.resetMode = some DailyResetMode.rolling then
        let key := costKey tyStr id "daily_rolling"
        let r := getCostDailyRollingWindow s key now window24h
        let current := jsParseFloatInt r.1
        if current = 0 ∧ Store.existsKey r.2 key now = 0 then
          checkCostLimitsFromDatabase db ttl tyStr id now (some r.2) allLimits
        else if current ≥ l.amount.getD 0 then
          ({ allowed := false, reason := some l.name }, some r.2)
        else checkCostLimitsLoop db ttl tyStr id now allLimits r.2 rest
      else
        let suffix := resetSuffix (normalizeResetTime l.resetTime)
        let periodKey :=
          if l.period = CostPeriod.daily then "daily_" ++ suffix else periodStr l.period
        let r := Store.get s (costKey tyStr id periodKey) now
        if r.1 = none ∧ l.amount.getD 0 > 0 then
          checkCostLimitsFromDatabase db ttl tyStr id now (some r.2) allLimits
        else
          let current := jsParseFloatInt ((r.1).getD "0")
          if current ≥ l.amount.getD 0 then
            ({ allowed := false, reason := some l.name }, some r.2)
          else checkCostLimitsLoop db ttl tyStr id now allLimits r.2 rest

/-- `RateLimitService.checkCostLimits`: fast path on a ready cache,
otherwise the durable-storage fallback. -/
def checkCostLimits (client : Option Store) (db ttl : CostPeriod → Int)
    (tyStr : String) (id : Int) (limits : LimitsInput) (now : Int) :
    CheckResult × Option Store :=
  let costLimits := buildCostLimits limits
  match client with
  | some s =>
      if s.status = StoreStatus.ready then
        checkCostLimitsLoop db ttl tyStr id now costLimits s costLimits
      else checkCostLimitsFromDatabase db ttl tyStr id now (some s) costLimits
  | none => checkCostLimitsFromDatabase db ttl tyStr id now none costLimits

/-- `provider:${providerId}:active_sessions`. -/
def providerSessionKey (providerId : Int) : String :=
  "provider:" ++ intToString providerId ++ ":active_sessions"

structure ProviderSessionResult where
  allowed : Bool
  count : Int
  tracked : Bool
  reason : Option String
  deriving DecidableEq, Repr

/-- `RateLimitService.checkAndTrackProviderSession`: no-op on a
non-positive limit, Fail Open when the cache is missing or not ready,
else the atomic script. -/
def checkAndTrackProviderSession (client : Option Store) (providerId : Int)
    (sessionId : String) (limit : Int) (now : Int) :
    ProviderSessionResult × Option Store :=
  if limit ≤ 0 then
    ({ allowed := true, count := 0, tracked := false, reason := none }, client)
  else
    match client with
    | none => ({ allowed := true, count := 0, tracked := false, reason := none }, none)
    | some s =>
        if ¬ (s.status = StoreStatus.ready) then
          ({ allowed := true, count := 0, tracked := false, reason := none }, some s)
        else
          let r := checkAndTrackSession s (providerSessionKey providerId) sessionId limit now
          if ¬ (r.1.allowed = true) then
            ({ allowed := false, count := r.1.currentCount, tracked := false,
               reason := some "provider session limit reached" }, some r.2)
          else
            ({ allowed := true, count := r.1.currentCount, tracked := r.1.tracked,
               reason := none }, some r.2)

/-! ### `SessionTracker.trackSession` (claim C8)

The pipeline queues `zadd`+`expire` for the global set, then for the
key-scoped set, and `exec` runs them sequentially; each command's numeric
result is collected. -/
/-- `key:${keyId}:active_sessions`. -/
def keyActiveSessionsKey (keyId : Int) : String :=
  "key:" ++ intToString keyId ++ ":active_sessions"

def trackSession (client : Option Store) (sessionId : String) (keyId : Int)
    (now : Int) : List Int × Option Store :=
  match client with
  | none => ([], none)
  | some s =>
      if ¬ (s.status = StoreStatus.ready) then ([], some s)
      else
        let r1 := Store.zadd s "global:active_sessions" now sessionId
        let r2 := Store.expire r1.2 "global:active_sessions" 3600 now
        let r3 := Store.zadd r2.2 (keyActiveSessionsKey keyId) now sessionId
        let r4 := Store.expire r3.2 (keyActiveSessionsKey keyId) 3600 now
        ([r1.1, r2.1, r3.1, r4.1], some r4.2)

/-! ### Endpoint Health Tracker (`EndpointHealthTracker`)

`updateEndpointHealth` persists to the durable repository; the
`HealthUpdate` value returned here is exactly the record it writes
(`none` when nothing is persisted). Thresholds: 3 consecutive failures
for `unhealthy`, 1 for `degraded`. -/

inductive EndpointHealthStatus
  | healthy
  | degraded
  | unhealthy
  | unknown
  deriving DecidableEq, Repr

structure HealthUpdate where
  consecutiveFailures : Int
  healthStatus : EndpointHealthStatus
  lastTime : Int
  deriving DecidableEq, Repr

/-- `recordSuccess`: a sentinel endpoint (id 0) is skipped; otherwise the
streak resets to 0 and the state to healthy. -/
def recordSuccess (endpointId : Int) (now : Int) : Option HealthUpdate :=
  if endpointId = 0 then none
  else
    some { consecutiveFailures := 0, healthStatus := EndpointHealthStatus.healthy,
           lastTime := now }

/-- `recordFailure`: bump the streak and derive the status from the
thresholds; returns the new status plus the persisted record. -/
def recordFailure (endpointId : Int) (currentFailures : Int) (now : Int) :
    EndpointHealthStatus × Option HealthUpdate :=
  if endpointId = 0 then (EndpointHealthStatus.healthy, none)
  else
    let newFailures := currentFailures + 1
    let healthStatus :=
      if newFailures ≥ 3 then EndpointHealthStatus.unhealthy
      else if newFailures ≥ 1 then EndpointHealthStatus.degraded
      else EndpointHealthStatus.healthy
    (healthStatus,
      some { consecutiveFailures := newFailures, healthStatus := healthStatus,
             lastTime := now })

/-! ### Endpoint Selector (`endpoint-selector.ts`)

`findEndpointsByProviderId` is repository code; the endpoint list is a
parameter. `Math.random()` is a caller-supplied uniform draw. -/

inductive EndpointSelectionStrategy
  | failover
  | round_robin
  | random
  | weighted
  deriving DecidableEq, Repr

structure ProviderRec where
  id : Int
  name : String
  url : String
  key : String
  useMultipleEndpoints : Bool
  endpointSelectionStrategy : Option EndpointSelectionStrategy
  deriving DecidableEq, Repr

structure ProviderEndpoint where
  id : Int
  providerId : Int
  name : String
  url : String
  apiKey : Option String
  priority : Int
  weight : Int
  isEnabled : Bool
  healthStatus : EndpointHealthStatus
  consecutiveFailures : Int
  deriving DecidableEq, Repr

structure ResolvedEndpoint where
  id : Int
  name : String
  url : String
  apiKey : String
  priority : Int
  weight : Int
  healthStatus : EndpointHealthStatus
  consecutiveFailures : Int
  deriving DecidableEq, Repr

/-- `apiKey: ep.apiKey || provider.key` (JS falsy: null or empty string). -/
def resolveEndpoint (providerKey : String) (ep : ProviderEndpoint) :
    ResolvedEndpoint :=
  { id := ep.id, name := ep.name, url := ep.url,
    apiKey :=
      match ep.apiKey with
      | some k => if k = "" then providerKey else k
      | none => providerKey,
    priority := ep.priority, weight := ep.weight,
    healthStatus := ep.healthStatus,
    consecutiveFailures := ep.consecutiveFailures }

/-- The availability filter of `selectEndpoint`:
`isEnabled ∧ healthStatus ≠ unhealthy ∧ id ∉ exclusions`, then key
resolution. -/
def availableEndpoints (provider : ProviderRec)
    (allEndpoints : List ProviderEndpoint) (excludeEndpointIds : List Int) :
    List ResolvedEndpoint :=
  (allEndpoints.filter (fun ep =>
      ep.isEnabled &&
      decide (ep.healthStatus ≠ EndpointHealthStatus.unhealthy) &&
      !(excludeEndpointIds.contains ep.id))).map
    (resolveEndpoint provider.key)

/-- `selectFailover`: ascending stable sort by priority, first element. -/
def selectFailover (endpoints : List ResolvedEndpoint) : Option ResolvedEndpoint :=
  (jsSortBy (fun ep => ep.priority) endpoints).head?

/-- Cumulative-subtraction walk of `selectWeighted`. -/
def selectWeightedGo (r : Rat) : List ResolvedEndpoint → Option ResolvedEndpoint
  | [] => none
  | ep :: rest =>
      if r - (ep.weight : Rat) ≤ 0 then some ep
      else selectWeightedGo (r - (ep.weight : Rat)) rest

/-- `selectWeighted` with the draw `r ∈ [0, Σweight)` made explicit; the
trailing fallback returns the last endpoint. -/
def selectWeighted (endpoints : List ResolvedEndpoint) (r : Rat) :
    Option ResolvedEndpoint :=
  match selectWeightedGo r endpoints with
  | some ep => some ep
  | none => endpoints.getLast?

/-- Per-call randomness and the process-wide round-robin cursor. -/
structure RandomInput where
  rrIndex : Int
  uniform : Rat
  deriving DecidableEq, Repr

/-- `EndpointSelector.selectEndpoint`. Multi-endpoint off yields the
synthetic id-0 endpoint; an unknown strategy falls back to failover (the
strategy field is `null`-able, modelled by `Option`). -/
def selectEndpoint (provider : ProviderRec)
    (allEndpoints : List ProviderEndpoint) (excludeEndpointIds : List Int)
    (rnd : RandomInput) : Option ResolvedEndpoint :=
  if ¬ provider.useMultipleEndpoints then
    some { id := 0, name := "default", url := provider.url,
           apiKey := provider.key, priority := 0, weight := 1,
           healthStatus := EndpointHealthStatus.healthy, consecutiveFailures := 0 }
  else
    let avail := availableEndpoints provider allEndpoints excludeEndpointIds
    if avail.length = 0 then none
    else
      match provider.endpointSelectionStrategy.getD
          EndpointSelectionStrategy.failover with
      | EndpointSelectionStrategy.failover => selectFailover avail
      | EndpointSelectionStrategy.round_robin =>
          avail.get? ((rnd.rrIndex % (avail.length : Int)).toNat)
      | EndpointSelectionStrategy.random =>
          avail.get? (rnd.uniform * (avail.length : Rat)).floor.toNat
      | EndpointSelectionStrategy.weighted =>
          selectWeighted avail
            (rnd.uniform * ((avail.map (fun ep => (ep.weight : Rat))).sum))

/-! ### Cost Multiplier Engine (`cost-multiplier.ts`)

The `Date`/`Intl` timezone conversion is environment code: a context
carries the request time already converted to the provider timezone as a
wall-clock `LocalTime` (hours, minutes, JS `getDay` 0=Sunday..6=Saturday).
`parseFloat` on the decimal multiplier strings is modelled for well-formed
decimals. -/

structure LocalTime where
  hours : Nat
  minutes : Nat
  getDay : Nat
  deriving DecidableEq, Repr

structure TimePeriodConfig where
  startTime : String
  endTime : String
  weekdays : Option (List Int)
  deriving DecidableEq, Repr

inductive CostRuleType
  | model
  | time_period
  deriving DecidableEq, Repr

inductive CostMultiplierStrategy
  | highest_priority
  | multiply
  deriving DecidableEq, Repr

structure ProviderCostRule where
  id : Int
  providerId : Int
  ruleType : CostRuleType
  name : String
  multiplier : String
  priority : Int
  modelPattern : Option String
  timePeriods : Option (List TimePeriodConfig)
  isEnabled : Bool
  deriving DecidableEq, Repr

structure CostMultiplierContext where
  model : String
  localTime : LocalTime
  deriving DecidableEq, Repr

structure AppliedRule where
  ruleId : Int
  ruleName : String
  ruleType : CostRuleType
  multiplier : Rat
  priority : Int
  deriving DecidableEq, Repr

structure CostMultiplierResult where
  finalMultiplier : Rat
  appliedRules : List AppliedRule
  baseMultiplier : Rat
  deriving DecidableEq, Repr

/-- The `^([0-1]\d|2[0-3]):([0-5]\d)$` check of `validateTimeFormat`. -/
def validateTimeFormat (s : String) : Bool :=
  match s.data with
  | [h1, h2, c, m1, m2] =>
      (match charDigit? h1, charDigit? h2, charDigit? m1, charDigit? m2 with
       | some d1, some d2, some d3, some _ =>
           decide (c = ':') &&
           (decide (d1 ≤ 1) || (decide (d1 = 2) && decide (d2 ≤ 3))) &&
           decide (d3 ≤ 5)
       | _, _, _, _ => false)
  | _ => false

/-- `split(":").map(Number)` then `h*60+m`, on a validated `"HH:mm"`. -/
def timeToMinutes (s : String) : Int :=
  match s.data with
  | [h1, h2, _, m1, m2] =>
      (((charDigit? h1).getD 0 * 10 + (charDigit? h2).getD 0) * 60 +
        ((charDigit? m1).getD 0 * 10 + (charDigit? m2).getD 0) : Nat)
  | _ => 0

/-- Glob matching (`*` any run, `?` one character), fuel-structured; the
source compiles the pattern to an anchored case-insensitive regex with
`*→.*` and `?→.`, which has the same semantics. -/
def globMatchAux : Nat → List Char → List Char → Bool
  | 0, _, _ => false
  | _ + 1, [], [] => true
  | fuel + 1, '*' :: ps, [] => globMatchAux fuel ps []
  | fuel + 1, '*' :: ps, c :: cs =>
      globMatchAux fuel ps (c :: cs) || globMatchAux fuel ('*' :: ps) cs
  | fuel + 1, '?' :: _, [] => false
  | fuel + 1, '?' :: ps, _ :: cs => globMatchAux fuel ps cs
  | _ + 1, _ :: _, [] => false
  | _ + 1, [], _ :: _ => false
  | fuel + 1, p :: ps, c :: cs => decide (p = c) && globMatchAux fuel ps cs

/-- `matchWildcard`: case-insensitive anchored glob (the `i` regex flag is
modelled by lowercasing both sides). -/
def matchWildcard (pattern text : String) : Bool :=
  globMatchAux (pattern.data.length + text.data.length + 1)
    (pattern.data.map Char.toLower) (text.data.map Char.toLower)

/-- One configured window of `isWithinTimePeriod`: malformed times skip
the period, restricted weekdays use 1=Monday..7=Sunday, inclusive start,
exclusive end, overnight wraparound when end < start. -/
def periodMatches (period : TimePeriodConfig) (lt : LocalTime) : Bool :=
  if !(validateTimeFormat period.startTime && validateTimeFormat period.endTime) then
    false
  else
    let currentWeekday : Int := if lt.getDay = 0 then 7 else (lt.getDay : Int)
    let weekdayOk :=
      match period.weekdays with
      | some (w :: ws) => (w :: ws).contains currentWeekday
      | _ => true
    if !weekdayOk then false
    else
      let currentMinutes : Int := (lt.hours : Int) * 60 + (lt.minutes : Int)
      let sm := timeToMinutes period.startTime
      let em := timeToMinutes period.endTime
      if sm ≤ em then decide (currentMinutes ≥ sm) && decide (currentMinutes < em)
      else decide (currentMinutes ≥ sm) || decide (currentMinutes < em)

def isWithinTimePeriod (timePeriods : List TimePeriodConfig) (lt : LocalTime) :
    Bool :=
  if timePeriods.isEmpty then false
  else timePeriods.any (fun p => periodMatches p lt)

/-- Split at the first decimal point. -/
def splitFirstDot : List Char → Option (List Char × List Char)
  | [] => none
  | c :: cs =>
      if c = '.' then some ([], cs)
      else
        match splitFirstDot cs with
        | none => none
        | some (a, b) => some (c :: a, b)

def parseUnsignedDecimal? (cs : List Char) : Option Rat :=
  match splitFirstDot cs with
  | none => (parseNatChars? cs).map (fun n => (n : Rat))
  | some (ip, fp) =>
      match parseNatChars? ip, parseNatChars? fp with
      | some i, some f => some ((i : Rat) + (f : Rat) / ((10 : Rat) ^ fp.length))
      | some i, none => if fp = [] then some ((i : Rat)) else none
      | none, some f =>
          if ip = [] then some ((f : Rat) / ((10 : Rat) ^ fp.length)) else none
      | none, none => none

/-- `parseFloat` on the decimal multiplier strings (0 when unreadable;
the claims only exercise well-formed decimals). -/
def jsParseFloat (s : String) : Rat :=
  match s.data with
  | [] => 0
  | c :: rest =>
      if c = '-' then (((parseUnsignedDecimal? rest).map Neg.neg).getD 0)
      else (parseUnsignedDecimal? (c :: rest)).getD 0

/-- A rule matches per `calculateFinalMultiplier`: a `model` rule by glob
on the context model, a `time_period` rule by local-time window. -/
def ruleMatches (ctx : CostMultiplierContext) (rule : ProviderCostRule) : Bool :=
  if rule.ruleType = CostRuleType.model then
    match rule.modelPattern with
    | some pat => matchWildcard pat ctx.model
    | none => false
  else
    match rule.timePeriods with
    | some tps => isWithinTimePeriod tps ctx.localTime
    | none => false

/-- Enabled rules that match, in source order. -/
def matchedRules (rules : List ProviderCostRule) (ctx : CostMultiplierContext) :
    List ProviderCostRule :=
  (rules.filter (fun r => r.isEnabled)).filter (ruleMatches ctx)

def toApplied (r : ProviderCostRule) : AppliedRule :=
  { ruleId := r.id, ruleName := r.name, ruleType := r.ruleType,
    multiplier := jsParseFloat r.multiplier, priority := r.priority }

/-- `calculateFinalMultiplier`: nothing matched keeps the base; under
`highest_priority` the descending-priority stable sort's head applies;
under `multiply` the left fold of all matched multipliers applies. -/
def calculateFinalMultiplier (baseMultiplier : Rat)
    (rules : List ProviderCostRule) (ctx : CostMultiplierContext)
    (strategy : CostMultiplierStrategy) : CostMultiplierResult :=
  let matched := matchedRules rules ctx
  if matched.isEmpty then
    { finalMultiplier := baseMultiplier, appliedRules := [],
      baseMultiplier := baseMultiplier }
  else if strategy = CostMultiplierStrategy.highest_priority then
    match jsSortBy (fun r => -r.priority) matched with
    | [] =>
        { finalMultiplier := baseMultiplier, appliedRules := [],
          baseMultiplier := baseMultiplier }
    | top :: _ =>
        { finalMultiplier := baseMultiplier * jsParseFloat top.multiplier,
          appliedRules := [toApplied top], baseMultiplier := baseMultiplier }
  else
    { finalMultiplier :=
        baseMultiplier *
          matched.foldl (fun acc r => acc * jsParseFloat r.multiplier) 1,
      appliedRules := matched.map toApplied, baseMultiplier := baseMultiplier }

def c10Endpoint : ResolvedEndpoint :=
  { id := 1, name := "e1", url := "u", apiKey := "k", priority := 1,
    weight := 1, healthStatus := EndpointHealthStatus.healthy,
    consecutiveFailures := 0 }

def c6Provider : ProviderRec :=
  { id := 1, name := "p", url := "https://p", key := "pk",
    useMultipleEndpoints := true,
    endpointSelectionStrategy := some EndpointSelectionStrategy.failover }

def c6Endpoint (i prio : Int) : ProviderEndpoint :=
  { id := i, providerId := 1, name := "e", url := "https://e", apiKey := none,
    priority := prio, weight := 1, isEnabled := true,
    healthStatus := EndpointHealthStatus.healthy, consecutiveFailures := 0 }

def c6Endpoints : List ProviderEndpoint :=
  [c6Endpoint 1 5, c6Endpoint 2 1, c6Endpoint 3 3]

def c7RuleModel : ProviderCostRule :=
  { id := 1, providerId := 1, ruleType := CostRuleType.model,
    name := "model-rule", multiplier := "1.5", priority := 1,
    modelPattern := some "claude-3-5-*", timePeriods := none,
    isEnabled := true }

def c7RuleTime : ProviderCostRule :=
  { id := 2, providerId := 1, ruleType := CostRuleType.time_period,
    name := "night", multiplier := "2.0", priority := 2,
    modelPattern := none,
    timePeriods :=
      some [{ startTime := "22:00", endTime := "06:00", weekdays := none }],
    isEnabled := true }

def c7Rules : List ProviderCostRule := [c7RuleModel, c7RuleTime]

def c7Ctx : CostMultiplierContext :=
  { model := "claude-3-5-sonnet",
    localTime := { hours := 23, minutes := 0, getDay := 3 } }

/-- Run a sequence of `checkAndTrackProviderSession` calls through the
service facade. -/
def runProviderCalls (providerId : Int) (limit : Int) :
    Option Store → List (String × Int) → List ProviderSessionResult × Option Store
  | cl, [] => ([], cl)
  | cl, c :: rest =>
      let r := checkAndTrackProviderSession cl providerId c.1 limit c.2
      let next := runProviderCalls providerId limit r.2 rest
      (r.1 :: next.1, next.2)

/-! ### Claim C3: cache miss vs genuine zero -/
/-- A `LimitsInput` with only the 5-hour limit set (to 10). -/
def limits5hOnly : LimitsInput :=
  { limit_5h_usd := some 10, limit_daily_usd := none, daily_reset_time := none,
    daily_reset_mode := none, limit_weekly_usd := none, limit_monthly_usd := none }

/-- A ready store whose ZSET map holds the 5h rolling key with one live
member of cost 0 (`"100:0"`, scored 100), and whose string map is empty. -/
def c3Store : Store :=
  { zsets := [("key:1:cost_5h_rolling", [("100:0", 100)])],
    strs := [], status := StoreStatus.ready }

theorem charDigit?_digitChar {d : Nat} (h : d < 10) :
    charDigit? (digitChar d) = some d := by
  interval_cases d <;> rfl

theorem goParse_append (acc : Nat) (xs ys : List Char) :
    goParse acc (xs ++ ys) =
      match goParse acc xs with
      | some v => goParse v ys
      | none => none := by
  induction xs generalizing acc with
  | nil => rfl
  | cons c cs ih =>
      simp only [List.cons_append, goParse]
      cases charDigit? c with
      | none => rfl
      | some d => exact ih _

theorem goParse_natToCharsAux (fuel : Nat) :
    ∀ n acc, n ≤ fuel →
      goParse acc (natToCharsAux fuel n) =
        some (acc * 10 ^ (natToCharsAux fuel n).length + n) := by
  induction fuel with
  | zero =>
      intro n acc hn
      have hn0 : n = 0 := Nat.le_zero.mp hn
      subst hn0
      simp [natToCharsAux, goParse]
  | succ fuel ih =>
      intro n acc hn
      match n with
      | 0 => simp [natToCharsAux, goParse]
      | m + 1 =>
          have hdiv : (m + 1) / 10 ≤ fuel := by
            have h1 : (m + 1) / 10 < m + 1 := Nat.div_lt_self (Nat.succ_pos m) (by omega)
            omega
          have hmod : (m + 1) % 10 < 10 := Nat.mod_lt _ (by omega)
          simp only [natToCharsAux]
          rw [goParse_append]
          rw [ih ((m + 1) / 10) acc hdiv]
          simp only [goParse, charDigit?_digitChar hmod]
          simp only [List.length_append, List.length_cons, List.length_nil,
            Option.some.injEq]
          rw [pow_succ, ← mul_assoc]
          omega

theorem parseNatChars?_cons (c : Char) (cs : List Char) :
    parseNatChars? (c :: cs) = goParse 0 (c :: cs) := rfl

theorem natToCharsAux_ne_nil {n : Nat} (h : n ≠ 0) : natToCharsAux n n ≠ [] := by
  match n, h with
  | m + 1, _ => simp [natToCharsAux]

theorem parseNatChars?_natToChars (n : Nat) :
    parseNatChars? (natToChars n) = some n := by
  by_cases h : n = 0
  · subst h; decide
  · unfold natToChars
    rw [if_neg h]
    obtain ⟨c, cs, hcons⟩ := List.exists_cons_of_ne_nil (natToCharsAux_ne_nil h)
    rw [hcons, parseNatChars?_cons, ← hcons]
    have := goParse_natToCharsAux n n 0 (le_refl n)
    rw [this]
    simp

/-- Every emitted character is a decimal digit. -/
theorem mem_natToCharsAux_digit (fuel : Nat) :
    ∀ n c, c ∈ natToCharsAux fuel n → ∃ d, d < 10 ∧ c = digitChar d := by
  induction fuel with
  | zero => intro n c hc; simp [natToCharsAux] at hc
  | succ fuel ih =>
      intro n c hc
      match n with
      | 0 => simp [natToCharsAux] at hc
      | m + 1 =>
          simp only [natToCharsAux, List.mem_append, List.mem_singleton] at hc
          cases hc with
          | inl h => exact ih _ _ h
          | inr h =>
              exact ⟨(m + 1) % 10, Nat.mod_lt _ (by omega), h⟩

theorem mem_natToChars_digit {n : Nat} {c : Char} (hc : c ∈ natToChars n) :
    ∃ d, d < 10 ∧ c = digitChar d := by
  unfold natToChars at hc
  by_cases h : n = 0
  · rw [if_pos h] at hc
    simp at hc
    exact ⟨0, by omega, hc⟩
  · rw [if_neg h] at hc
    exact mem_natToCharsAux_digit n n c hc

theorem digitChar_ne_colon {d : Nat} : digitChar d ≠ ':' := by
  unfold digitChar
  split <;> decide

theorem digitChar_ne_minus {d : Nat} : digitChar d ≠ '-' := by
  unfold digitChar
  split <;> decide

theorem mem_intToChars_ne_colon {i : Int} {c : Char} (hc : c ∈ intToChars i) :
    c ≠ ':' := by
  unfold intToChars at hc
  by_cases h : i < 0
  · rw [if_pos h] at hc
    cases hc with
    | head => decide
    | tail _ h2 =>
        obtain ⟨d, _, hd⟩ := mem_natToChars_digit h2
        rw [hd]; exact digitChar_ne_colon
  · rw [if_neg h] at hc
    obtain ⟨d, _, hd⟩ := mem_natToChars_digit hc
    rw [hd]; exact digitChar_ne_colon

theorem parseIntChars?_cons (c : Char) (cs : List Char) :
    parseIntChars? (c :: cs) =
      if c = '-' then (parseNatChars? cs).map (fun n => -(Int.ofNat n))
      else (parseNatChars? (c :: cs)).map Int.ofNat := rfl

theorem natToChars_ne_nil (n : Nat) : natToChars n ≠ [] := by
  unfold natToChars
  by_cases h0 : n = 0
  · rw [if_pos h0]; simp
  · rw [if_neg h0]; exact natToCharsAux_ne_nil h0

theorem parseIntChars?_intToChars (i : Int) :
    parseIntChars? (intToChars i) = some i := by
  unfold intToChars
  by_cases h : i < 0
  · rw [if_pos h, parseIntChars?_cons, if_pos rfl, parseNatChars?_natToChars]
    simp only [Option.map_some', Option.some.injEq]
    simp only [Int.ofNat_eq_natCast]
    omega
  · rw [if_neg h]
    obtain ⟨c, cs, hcons⟩ := List.exists_cons_of_ne_nil (natToChars_ne_nil i.toNat)
    have hcmem : c ∈ natToChars i.toNat := by rw [hcons]; exact List.mem_cons_self _ _
    obtain ⟨d, _, hd⟩ := mem_natToChars_digit hcmem
    have hcm : c ≠ '-' := by rw [hd]; exact digitChar_ne_minus
    rw [hcons, parseIntChars?_cons, if_neg hcm, ← hcons, parseNatChars?_natToChars]
    simp only [Option.map_some', Option.some.injEq, Int.ofNat_eq_natCast]
    omega

theorem splitFirstColon_append {xs : List Char} (ys : List Char)
    (hxs : ∀ c ∈ xs, c ≠ ':') :
    splitFirstColon (xs ++ ':' :: ys) = some (xs, ys) := by
  induction xs with
  | nil => simp [splitFirstColon]
  | cons c cs ih =>
      have hc : c ≠ ':' := hxs c (List.mem_cons_self _ _)
      simp only [List.cons_append, splitFirstColon, if_neg hc]
      rw [List.append_eq, ih (fun d hd => hxs d (List.mem_cons_of_mem _ hd))]

theorem splitFirstColon_encode (ts cost : Int) :
    splitFirstColon (encodeMemberChars ts cost) =
      some (intToChars ts, intToChars cost) :=
  splitFirstColon_append _ (fun _ hc => mem_intToChars_ne_colon hc)

theorem parseCostFromMember_encode (ts cost : Int) :
    parseCostFromMember (encodeMember ts cost) = cost := by
  unfold parseCostFromMember encodeMember
  show (match splitFirstColon (encodeMemberChars ts cost) with
    | none => 0
    | some (_, rest) => (parseIntChars? rest).getD 0) = cost
  rw [splitFirstColon_encode]
  simp [parseIntChars?_intToChars]

theorem encodeMember_inj {t1 c1 t2 c2 : Int}
    (h : encodeMember t1 c1 = encodeMember t2 c2) : t1 = t2 ∧ c1 = c2 := by
  have hlist : encodeMemberChars t1 c1 = encodeMemberChars t2 c2 := by
    have := congrArg String.data h
    simpa [encodeMember] using this
  have h1 := splitFirstColon_encode t1 c1
  have h2 := splitFirstColon_encode t2 c2
  rw [hlist, h2] at h1
  simp only [Option.some.injEq, Prod.mk.injEq] at h1
  obtain ⟨hts, hcs⟩ := h1
  constructor
  · have := parseIntChars?_intToChars t1
    rw [← hts, parseIntChars?_intToChars t2] at this
    exact (Option.some_inj.mp this).symm
  · have := parseIntChars?_intToChars c1
    rw [← hcs, parseIntChars?_intToChars c2] at this
    exact (Option.some_inj.mp this).symm

theorem jsParseFloatInt_intToString (i : Int) :
    jsParseFloatInt (intToString i) = i := by
  unfold jsParseFloatInt intToString
  rw [show (String.mk (intToChars i)).data = intToChars i from rfl]
  rw [parseIntChars?_intToChars]
  rfl

theorem afind_aset_self {α : Type} (l : List (String × α)) (k : String) (v : α) :
    afind (aset l k v) k = some v := by
  induction l with
  | nil => simp [aset, afind]
  | cons e rest ih =>
      obtain ⟨k', v'⟩ := e
      by_cases h : k' = k
      · simp [aset, afind, h]
      · simp [aset, afind, h, ih]

theorem afind_aset_ne {α : Type} (l : List (String × α)) {k k2 : String} (v : α)
    (h : k ≠ k2) : afind (aset l k v) k2 = afind l k2 := by
  induction l with
  | nil => simp [aset, afind, h]
  | cons e rest ih =>
      obtain ⟨k', v'⟩ := e
      by_cases h2 : k' = k
      · subst h2; simp [aset, afind, h]
      · simp only [aset, if_neg h2, afind]
        by_cases h3 : k' = k2
        · simp [afind, h3]
        · simp [afind, h3, ih]

theorem afind_adel_self {α : Type} (l : List (String × α)) (k : String) :
    afind (adel l k) k = none := by
  induction l with
  | nil => simp [adel, afind]
  | cons e rest ih =>
      obtain ⟨k', v'⟩ := e
      by_cases h : k' = k
      · simp [adel, h, ih]
      · simp [adel, afind, h, ih]

theorem afind_adel_ne {α : Type} (l : List (String × α)) {k k2 : String}
    (h : k ≠ k2) : afind (adel l k) k2 = afind l k2 := by
  induction l with
  | nil => simp [adel]
  | cons e rest ih =>
      obtain ⟨k', v'⟩ := e
      by_cases h2 : k' = k
      · subst h2; simp [adel, afind, h, ih]
      · simp only [adel, if_neg h2, afind]
        by_cases h3 : k' = k2
        · simp [h3]
        · simp [h3, ih]

theorem jsInsert_perm {α : Type} (k : α → Int) (x : α) (l : List α) :
    List.Perm (jsInsert k x l) (x :: l) := by
  induction l with
  | nil => simp [jsInsert]
  | cons y ys ih =>
      by_cases h : k x < k y
      · simp [jsInsert, h]
      · simp only [jsInsert, if_neg h]
        exact (List.Perm.cons y ih).trans (List.Perm.swap x y ys)

theorem jsSortBy_foldl_perm {α : Type} (k : α → Int) :
    ∀ (l acc : List α),
      List.Perm (l.foldl (fun acc x => jsInsert k x acc) acc) (l ++ acc) := by
  intro l
  induction l with
  | nil => intro acc; simp
  | cons x xs ih =>
      intro acc
      simp only [List.foldl_cons, List.cons_append]
      refine (ih (jsInsert k x acc)).trans ?_
      refine (List.Perm.append_left xs (jsInsert_perm k x acc)).trans ?_
      exact List.perm_middle

theorem jsSortBy_perm {α : Type} (k : α → Int) (l : List α) :
    List.Perm (jsSortBy k l) l := by
  have := jsSortBy_foldl_perm k l []
  simpa [jsSortBy] using this

theorem mem_jsSortBy {α : Type} (k : α → Int) (l : List α) (a : α) :
    a ∈ jsSortBy k l ↔ a ∈ l :=
  (jsSortBy_perm k l).mem_iff

theorem length_jsSortBy {α : Type} (k : α → Int) (l : List α) :
    (jsSortBy k l).length = l.length :=
  (jsSortBy_perm k l).length_eq

theorem mem_jsInsert {α : Type} (k : α → Int) (x a : α) (l : List α) :
    a ∈ jsInsert k x l ↔ a = x ∨ a ∈ l := by
  have := (jsInsert_perm k x l).mem_iff (a := a)
  simpa using this

theorem jsInsert_sorted {α : Type} (k : α → Int) (x : α) (l : List α)
    (h : l.Pairwise (fun a b => k a ≤ k b)) :
    (jsInsert k x l).Pairwise (fun a b => k a ≤ k b) := by
  induction l with
  | nil => simp [jsInsert]
  | cons y ys ih =>
      rcases List.pairwise_cons.mp h with ⟨hy, hys⟩
      by_cases hlt : k x < k y
      · simp only [jsInsert, if_pos hlt]
        refine List.pairwise_cons.mpr ⟨?_, h⟩
        intro b hb
        rcases List.mem_cons.mp hb with hb | hb
        · subst hb; omega
        · have := hy b hb; omega
      · simp only [jsInsert, if_neg hlt]
        refine List.pairwise_cons.mpr ⟨?_, ih hys⟩
        intro b hb
        rcases (mem_jsInsert k x b ys).mp hb with hb | hb
        · subst hb; omega
        · exact hy b hb

theorem jsSortBy_sorted {α : Type} (k : α → Int) (l : List α) :
    (jsSortBy k l).Pairwise (fun a b => k a ≤ k b) := by
  suffices h : ∀ (l acc : List α), acc.Pairwise (fun a b => k a ≤ k b) →
      (l.foldl (fun acc x => jsInsert k x acc) acc).Pairwise (fun a b => k a ≤ k b) by
    exact h l [] (List.Pairwise.nil)
  intro l
  induction l with
  | nil => intro acc h; simpa using h
  | cons x xs ih =>
      intro acc h
      exact ih _ (jsInsert_sorted k x acc h)

/-- The head of a list sorted ascending by `k` has the minimal key. -/
theorem sorted_head_min {α : Type} (k : α → Int) (x : α) (l : List α)
    (h : (x :: l).Pairwise (fun a b => k a ≤ k b)) :
    ∀ b ∈ x :: l, k x ≤ k b := by
  intro b hb
  rcases List.mem_cons.mp hb with hb | hb
  · subst hb; omega
  · exact (List.pairwise_cons.mp h).1 b hb

theorem zentries_zadd (s : Store) (key : String) (score : Int) (member : String) :
    zentries (Store.zadd s key score member).2 key =
      aset (zentries s key) member score := by
  unfold Store.zadd zentries
  simp [afind_aset_self]

theorem zentries_zadd_ne (s : Store) {key key2 : String} (score : Int)
    (member : String) (h : key ≠ key2) :
    zentries (Store.zadd s key score member).2 key2 = zentries s key2 := by
  unfold Store.zadd zentries
  simp [afind_aset_ne _ _ h]

theorem zadd_fst (s : Store) (key : String) (score : Int) (member : String) :
    (Store.zadd s key score member).1 =
      if (afind (zentries s key) member).isNone then 1 else 0 := rfl

theorem zentries_zrem (s : Store) (key : String) (min? : Option Int) (max : Int) :
    zentries (Store.zremrangebyscore s key min? max).2 key =
      (zentries s key).filter (fun e => !(Store.zScoreInRange min? max e)) := by
  unfold Store.zremrangebyscore zentries
  match h : afind s.zsets key with
  | none => simp [h]
  | some zset =>
      by_cases h0 : zset.length = 0
      · have hz : zset = [] := List.length_eq_zero.mp h0
        simp [h, h0, hz]
      · simp only [h, if_neg h0]
        by_cases h1 : (zset.filter (fun e => !(Store.zScoreInRange min? max e))).length = 0
        · have hz : zset.filter (fun e => !(Store.zScoreInRange min? max e)) = [] :=
            List.length_eq_zero.mp h1
          simp [h1, afind_adel_self, hz]
        · simp [h1, afind_aset_self]

theorem zentries_zrem_ne (s : Store) {key key2 : String} (min? : Option Int)
    (max : Int) (h : key ≠ key2) :
    zentries (Store.zremrangebyscore s key min? max).2 key2 = zentries s key2 := by
  unfold Store.zremrangebyscore zentries
  match h2 : afind s.zsets key with
  | none => simp
  | some zset =>
      by_cases h0 : zset.length = 0
      · simp [h0]
      · simp only [if_neg h0]
        by_cases h1 : (zset.filter (fun e => !(Store.zScoreInRange min? max e))).length = 0
        · simp [h1, afind_adel_ne _ h]
        · simp [h1, afind_aset_ne _ _ h]

theorem zcard_eq (s : Store) (key : String) :
    Store.zcard s key = (zentries s key).length := rfl

theorem zscore_eq (s : Store) (key : String) (member : String) :
    Store.zscore s key member = afind (zentries s key) member := by
  unfold Store.zscore zentries
  match afind s.zsets key with
  | none => simp [afind]
  | some zset => simp

theorem zrange_all (s : Store) (key : String) :
    Store.zrange s key 0 (-1) =
      (jsSortBy (fun e => e.2) (zentries s key)).map (fun e => e.1) := by
  unfold Store.zrange zentries
  match h : afind s.zsets key with
  | none => simp [jsSortBy]
  | some zset =>
      by_cases h0 : zset.length = 0
      · have hz : zset = [] := List.length_eq_zero.mp h0
        simp [h0, hz, jsSortBy]
      · simp only [if_neg h0]
        have hpos : ¬ ((0 : Int) < 0) := by omega
        have hneg : (-1 : Int) < 0 := by omega
        simp only [hpos, if_false, hneg, if_true]
        have harith : ((jsSortBy (fun e : String × Int => e.2) zset).length : Int) + -1 + 1 =
            ((jsSortBy (fun e : String × Int => e.2) zset).length : Int) := by ring
        rw [harith, min_self, Int.toNat_natCast, List.take_length]
        simp

/-- The string map is untouched by every sorted-set operation. -/
theorem strs_zadd (s : Store) (key : String) (score : Int) (member : String) :
    (Store.zadd s key score member).2.strs = s.strs := rfl

theorem strs_zrem (s : Store) (key : String) (min? : Option Int) (max : Int) :
    (Store.zremrangebyscore s key min? max).2.strs = s.strs := by
  unfold Store.zremrangebyscore
  match afind s.zsets key with
  | none => rfl
  | some zset =>
      by_cases h0 : zset.length = 0
      · simp [h0]
      · simp only [if_neg h0]
        by_cases h1 : (zset.filter (fun e => !(Store.zScoreInRange min? max e))).length = 0
        · simp [h1]
        · simp [h1]

theorem status_zadd (s : Store) (key : String) (score : Int) (member : String) :
    (Store.zadd s key score member).2.status = s.status := rfl

theorem status_zrem (s : Store) (key : String) (min? : Option Int) (max : Int) :
    (Store.zremrangebyscore s key min? max).2.status = s.status := by
  unfold Store.zremrangebyscore
  match afind s.zsets key with
  | none => rfl
  | some zset =>
      by_cases h0 : zset.length = 0
      · simp [h0]
      · simp only [if_neg h0]
        by_cases h1 : (zset.filter (fun e => !(Store.zScoreInRange min? max e))).length = 0
        · simp [h1]
        · simp [h1]

theorem calculateTotalCost_eq (s : Store) (key : String) :
    calculateTotalCost s key =
      ((zentries s key).map (fun e => parseCostFromMember e.1)).sum := by
  unfold calculateTotalCost
  rw [zrange_all, List.map_map]
  exact List.Perm.sum_eq ((jsSortBy_perm _ _).map _)

/-- The `-Infinity .. cutoff` trim keeps exactly the strictly newer scores. -/
theorem zentries_trim (s : Store) (key : String) (cutoff : Int) :
    zentries (Store.zremrangebyscore s key none cutoff).2 key =
      (zentries s key).filter (fun e => decide (cutoff < e.2)) := by
  rw [zentries_zrem]
  apply List.filter_congr
  intro e _
  unfold Store.zScoreInRange
  simp only [Bool.true_and]
  by_cases h : e.2 ≤ cutoff
  · have h2 : ¬ cutoff < e.2 := by omega
    simp [h, h2]
  · have h2 : cutoff < e.2 := by omega
    simp [h, h2]

theorem filter_trim_idem (E : ZEntries) (cutoff : Int) :
    (E.filter (fun e => decide (cutoff < e.2))).filter
        (fun e => decide (cutoff < e.2)) =
      E.filter (fun e => decide (cutoff < e.2)) := by
  rw [List.filter_filter]
  apply List.filter_congr
  intro e _
  simp

theorem checkAndTrackSession_pure (s : Store) (key sid : String)
    (limit now : Int) :
    (checkAndTrackSession s key sid limit now).1 =
        (pureCheckTrack (zentries s key) sid limit now).1 ∧
      zentries (checkAndTrackSession s key sid limit now).2 key =
        (pureCheckTrack (zentries s key) sid limit now).2 := by
  unfold checkAndTrackSession pureCheckTrack
  have htrim := zentries_trim s key (now - 300000)
  have hscore := zscore_eq (Store.zremrangebyscore s key none (now - 300000)).2 key sid
  have hcard := zcard_eq (Store.zremrangebyscore s key none (now - 300000)).2 key
  rw [htrim] at hscore hcard
  simp only [hscore, hcard]
  by_cases hc : limit > 0 ∧
      ¬((afind ((zentries s key).filter (fun e => decide (now - 300000 < e.2))) sid).isSome = true) ∧
      ((zentries s key).filter (fun e => decide (now - 300000 < e.2))).length ≥ limit
  · simp only [if_pos hc]
    exact ⟨by trivial, htrim⟩
  · simp only [if_neg hc]
    by_cases ht : (afind ((zentries s key).filter (fun e => decide (now - 300000 < e.2))) sid).isSome = true
    · simp only [if_pos ht]
      refine ⟨by trivial, ?_⟩
      rw [zentries_zadd, htrim]
    · simp only [if_neg ht]
      refine ⟨by trivial, ?_⟩
      rw [zentries_zadd, htrim]

theorem afind_eq_none_iff {α : Type} (l : List (String × α)) (k : String) :
    afind l k = none ↔ ∀ e ∈ l, e.1 ≠ k := by
  induction l with
  | nil => simp [afind]
  | cons e rest ih =>
      obtain ⟨k', v'⟩ := e
      by_cases h : k' = k
      · subst h; simp [afind]
      · simp [afind, h, ih]

theorem aset_eq_append {α : Type} {l : List (String × α)} {k : String} (v : α)
    (h : afind l k = none) : aset l k v = l ++ [(k, v)] := by
  induction l with
  | nil => simp [aset]
  | cons e rest ih =>
      obtain ⟨k', v'⟩ := e
      by_cases h2 : k' = k
      · subst h2; simp [afind] at h
      · simp only [afind, if_neg h2] at h
        simp [aset, h2, ih h]

theorem zentries_track (s : Store) (key : String) (cost now W : Int) :
    zentries (trackCost5hRollingWindow s key cost now W).2 key =
      aset ((zentries s key).filter (fun e => decide (now - W < e.2)))
        (encodeMember now cost) now := by
  unfold trackCost5hRollingWindow
  simp only
  rw [zentries_zadd, zentries_trim]

theorem trackCost5h_fst (s : Store) (key : String) (cost now W : Int) :
    (trackCost5hRollingWindow s key cost now W).1 =
      intToString (calculateTotalCost (trackCost5hRollingWindow s key cost now W).2 key) := rfl

theorem getCost5h_fst (s : Store) (key : String) (now W : Int) :
    (getCost5hRollingWindow s key now W).1 =
      intToString
        (((zentries s key).filter (fun e => decide (now - W < e.2))).map
          (fun e => parseCostFromMember e.1)).sum := by
  unfold getCost5hRollingWindow
  simp only
  rw [calculateTotalCost_eq, zentries_trim]

theorem getCost5h_snd (s : Store) (key : String) (now W : Int) :
    zentries (getCost5hRollingWindow s key now W).2 key =
      (zentries s key).filter (fun e => decide (now - W < e.2)) := by
  unfold getCost5hRollingWindow
  simp only
  rw [zentries_trim]

theorem getCostDaily_fst (s : Store) (key : String) (now W : Int) :
    (getCostDailyRollingWindow s key now W).1 =
      intToString
        (((zentries s key).filter (fun e => decide (now - W < e.2))).map
          (fun e => parseCostFromMember e.1)).sum := by
  unfold getCostDailyRollingWindow
  simp only
  rw [calculateTotalCost_eq, zentries_trim]

theorem getCostDaily_snd (s : Store) (key : String) (now W : Int) :
    zentries (getCostDailyRollingWindow s key now W).2 key =
      (zentries s key).filter (fun e => decide (now - W < e.2)) := by
  unfold getCostDailyRollingWindow
  simp only
  rw [zentries_trim]

/-- Core invariant: after tracking `events` on top of contents `K.map
eventEntry`, the part of the key's contents still inside the window
anchored at `now` is exactly the in-window part of `K ++ events`. -/
theorem foldTrack_window (key : String) (W now : Int) :
    ∀ (events : List (Int × Int)) (s : Store) (K : List (Int × Int)),
      zentries s key = K.map eventEntry →
      List.Pairwise (fun a b => a.1 < b.1) (K ++ events) →
      (∀ e ∈ K ++ events, e.1 ≤ now) →
      (zentries (foldTrack key W s events) key).filter
          (fun en => decide (now - W < en.2)) =
        ((K ++ events).filter (fun e => decide (now - W < e.1))).map eventEntry := by
  intro events
  induction events with
  | nil =>
      intro s K hK _ _
      simp only [foldTrack, List.foldl_nil, List.append_nil]
      rw [hK, List.filter_map]
      rfl
  | cons e es ih =>
      intro s K hK hpair hle
      have hstep : zentries (trackCost5hRollingWindow s key e.2 e.1 W).2 key =
          ((K.filter (fun k => decide (e.1 - W < k.1))) ++ [e]).map eventEntry := by
        rw [zentries_track, hK, List.filter_map]
        rw [show ((fun en : String × Int => decide (e.1 - W < en.2)) ∘ eventEntry) =
          (fun k : Int × Int => decide (e.1 - W < k.1)) from rfl]
        have hfresh : afind
            ((K.filter (fun k => decide (e.1 - W < k.1))).map eventEntry)
            (encodeMember e.1 e.2) = none := by
          rw [afind_eq_none_iff]
          intro en hen hcontra
          obtain ⟨k, hkmem, hkeq⟩ := List.mem_map.mp hen
          have hk2 : k ∈ K := List.mem_of_mem_filter hkmem
          have : k.1 < e.1 := by
            have := (List.pairwise_append.mp hpair).2.2 k hk2 e (List.mem_cons_self _ _)
            exact this
          rw [← hkeq] at hcontra
          have := encodeMember_inj hcontra
          omega
        rw [aset_eq_append _ hfresh]
        simp only [List.map_append]
        rfl
      have hKe : K ++ e :: es = (K ++ [e]) ++ es := by simp
      have hsub : List.Sublist
          (((K.filter (fun k => decide (e.1 - W < k.1))) ++ [e]) ++ es)
          ((K ++ [e]) ++ es) :=
        List.Sublist.append_right
          (List.Sublist.append_right (List.filter_sublist K) [e]) es
      have hsub2 : List.Sublist
          (((K.filter (fun k => decide (e.1 - W < k.1))) ++ [e]) ++ es)
          (K ++ e :: es) := by
        rw [hKe]; exact hsub
      have hpair2 : List.Pairwise (fun a b => a.1 < b.1)
          ((K.filter (fun k => decide (e.1 - W < k.1)) ++ [e]) ++ es) :=
        hpair.sublist hsub2
      have hle2 : ∀ x ∈ (K.filter (fun k => decide (e.1 - W < k.1)) ++ [e]) ++ es,
          x.1 ≤ now := fun x hx => hle x (hsub2.subset hx)
      have hfold : foldTrack key W s (e :: es) =
          foldTrack key W (trackCost5hRollingWindow s key e.2 e.1 W).2 es := rfl
      rw [hfold]
      rw [ih (trackCost5hRollingWindow s key e.2 e.1 W).2
        (K.filter (fun k => decide (e.1 - W < k.1)) ++ [e]) hstep hpair2 hle2]
      congr 1
      have heins : e ∈ K ++ e :: es := by simp
      have hnow_e : e.1 ≤ now := hle e heins
      have hcollapse :
          (K.filter (fun k => decide (e.1 - W < k.1))).filter
              (fun k => decide (now - W < k.1)) =
            K.filter (fun k => decide (now - W < k.1)) := by
        rw [List.filter_filter]
        apply List.filter_congr
        intro k _
        by_cases hwin : now - W < k.1
        · have h1 : e.1 - W < k.1 := by omega
          simp [hwin, h1]
        · simp [hwin]
      have hsplit : ∀ (p : Int × Int → Bool) (x : Int × Int) (l : List (Int × Int)),
          List.filter p (x :: l) = List.filter p [x] ++ List.filter p l := by
        intro p x l
        by_cases hp : p x = true
        · simp [List.filter_cons, hp]
        · simp [List.filter_cons, hp]
      rw [List.filter_append, List.filter_append, hcollapse,
        List.filter_append, hsplit _ e es, List.append_assoc]

/-- The grand total a subsequent `GET` reports over a tracked history: the
sum of the costs of exactly the strictly-in-window events. -/
theorem foldTrack_get_sum (key : String) (W now : Int)
    (events : List (Int × Int)) (s0 : Store)
    (h0 : zentries s0 key = [])
    (hpair : List.Pairwise (fun a b => a.1 < b.1) events)
    (hle : ∀ e ∈ events, e.1 ≤ now) :
    jsParseFloatInt (getCost5hRollingWindow (foldTrack key W s0 events) key now W).1
      = ((events.filter (fun e => decide (now - W < e.1))).map (fun e => e.2)).sum := by
  rw [getCost5h_fst, jsParseFloatInt_intToString]
  have hwin := foldTrack_window key W now events s0 []
    (by simpa using h0) (by simpa using hpair) (by simpa using hle)
  simp only [List.nil_append] at hwin
  rw [hwin, List.map_map]
  congr 1
  apply List.map_congr_left
  intro k _
  exact parseCostFromMember_encode k.1 k.2

/-- One admission step on a set whose members all survive the trim and
none of which is the candidate session: reject exactly when the limit is
positive and already met, else append. -/
theorem checkAndTrack_step (s : Store) (key sid : String) (limit now : Int)
    (hlive : ∀ en ∈ zentries s key, now - 300000 < en.2)
    (hfresh : ∀ en ∈ zentries s key, en.1 ≠ sid) :
    (checkAndTrackSession s key sid limit now).1 =
        (if limit > 0 ∧ ((zentries s key).length : Int) ≥ limit
         then ⟨false, ((zentries s key).length : Int), false⟩
         else ⟨true, ((zentries s key).length : Int) + 1, true⟩) ∧
      zentries (checkAndTrackSession s key sid limit now).2 key =
        (if limit > 0 ∧ ((zentries s key).length : Int) ≥ limit
         then zentries s key
         else zentries s key ++ [(sid, now)]) := by
  obtain ⟨h1, h2⟩ := checkAndTrackSession_pure s key sid limit now
  have hE1 : (zentries s key).filter (fun e => decide (now - 300000 < e.2)) =
      zentries s key :=
    List.filter_eq_self.mpr (fun a ha => by simpa using hlive a ha)
  have hafind : afind (zentries s key) sid = none :=
    (afind_eq_none_iff _ _).mpr hfresh
  rw [h1, h2]
  simp only [pureCheckTrack, hE1, hafind, Option.isSome_none]
  by_cases hc : limit > 0 ∧ ((zentries s key).length : Int) ≥ limit
  · rw [if_pos (show limit > 0 ∧ ¬(false = true) ∧
        ((zentries s key).length : Int) ≥ limit from ⟨hc.1, by simp, hc.2⟩),
      if_pos hc, if_pos hc]
    exact ⟨rfl, rfl⟩
  · have hc' : ¬ (limit > 0 ∧ ¬(false = true) ∧
        ((zentries s key).length : Int) ≥ limit) := fun h => hc ⟨h.1, h.2.2⟩
    rw [if_neg hc', if_neg (show ¬ (false = true) by simp),
      if_neg hc, if_neg hc, aset_eq_append _ hafind]
    exact ⟨rfl, rfl⟩

/-- Main counting invariant for a burst of distinct sessions inside the
liveness window: admissions fill the remaining capacity, the rest are
rejected, and the set ends at `min (|E| + #calls) N`. -/
theorem runCheckTrack_spec (key : String) (N : Nat) (hN : 0 < N) :
    ∀ (calls : List (String × Int)) (s : Store),
      (∀ en ∈ zentries s key, ∀ c ∈ calls, c.2 - 300000 < en.2) →
      (∀ en ∈ zentries s key, ∀ c ∈ calls, en.1 ≠ c.1) →
      (calls.map Prod.fst).Nodup →
      (∀ a ∈ calls, ∀ b ∈ calls, b.2 - 300000 < a.2) →
      (zentries s key).length ≤ N →
      ((runCheckTrack key (N : Int) s calls).1.countP
            (fun r => r.allowed && r.tracked)
          = min (N - (zentries s key).length) calls.length) ∧
        ((runCheckTrack key (N : Int) s calls).1.countP (fun r => !r.allowed)
          = calls.length - min (N - (zentries s key).length) calls.length) ∧
        (zentries (runCheckTrack key (N : Int) s calls).2 key).length
          = min ((zentries s key).length + calls.length) N := by
  intro calls
  induction calls with
  | nil =>
      intro s _ _ _ _ hlen
      refine ⟨by simp [runCheckTrack], by simp [runCheckTrack], ?_⟩
      simp only [runCheckTrack, List.length_nil, Nat.add_zero]
      omega
  | cons c rest ih =>
      intro s hlive hfresh hnodup hspan hlen
      obtain ⟨sid, t⟩ := c
      have hlive1 : ∀ en ∈ zentries s key, t - 300000 < en.2 :=
        fun en hen => hlive en hen (sid, t) (List.mem_cons_self _ _)
      have hfresh1 : ∀ en ∈ zentries s key, en.1 ≠ sid :=
        fun en hen => hfresh en hen (sid, t) (List.mem_cons_self _ _)
      obtain ⟨hr1, hr2⟩ := checkAndTrack_step s key sid (N : Int) t hlive1 hfresh1
      have hrun : runCheckTrack key (N : Int) s ((sid, t) :: rest) =
          ((checkAndTrackSession s key sid (N : Int) t).1 ::
              (runCheckTrack key (N : Int)
                (checkAndTrackSession s key sid (N : Int) t).2 rest).1,
            (runCheckTrack key (N : Int)
              (checkAndTrackSession s key sid (N : Int) t).2 rest).2) := rfl
      have hnodup' : (rest.map Prod.fst).Nodup := by
        simp only [List.map_cons, List.nodup_cons] at hnodup
        exact hnodup.2
      have hsidfresh : sid ∉ rest.map Prod.fst := by
        simp only [List.map_cons, List.nodup_cons] at hnodup
        exact hnodup.1
      by_cases hfull : ((zentries s key).length : Int) ≥ (N : Int)
      · -- already at capacity: rejected, contents unchanged
        have hcond : (N : Int) > 0 ∧ ((zentries s key).length : Int) ≥ (N : Int) :=
          ⟨by exact_mod_cast hN, hfull⟩
        rw [if_pos hcond] at hr1 hr2
        have ihres := ih (checkAndTrackSession s key sid (N : Int) t).2
          (by rw [hr2]; exact fun en hen c hc => hlive en hen c (List.mem_cons_of_mem _ hc))
          (by rw [hr2]; exact fun en hen c hc => hfresh en hen c (List.mem_cons_of_mem _ hc))
          hnodup'
          (fun a ha b hb =>
            hspan a (List.mem_cons_of_mem _ ha) b (List.mem_cons_of_mem _ hb))
          (by rw [hr2]; omega)
        rw [hr2] at ihres
        obtain ⟨iha, ihb, ihc⟩ := ihres
        refine ⟨?_, ?_, ?_⟩
        · rw [hrun]
          simp only [List.countP_cons, hr1, iha]
          norm_num
          omega
        · rw [hrun]
          simp only [List.countP_cons, hr1, ihb, List.length_cons]
          norm_num
          omega
        · rw [hrun]
          simp only [List.length_cons, ihc]
          omega
      · -- capacity available: admitted and tracked, contents grow by one
        have hcond : ¬ ((N : Int) > 0 ∧
            ((zentries s key).length : Int) ≥ (N : Int)) := fun h => hfull h.2
        rw [if_neg hcond] at hr1 hr2
        have hlt : (zentries s key).length < N := by omega
        have ihres := ih (checkAndTrackSession s key sid (N : Int) t).2
          (by
            rw [hr2]
            intro en hen c hc
            rcases List.mem_append.mp hen with h | h
            · exact hlive en h c (List.mem_cons_of_mem _ hc)
            · have heq : en = (sid, t) := by simpa using h
              subst heq
              exact hspan (sid, t) (List.mem_cons_self _ _) c
                (List.mem_cons_of_mem _ hc))
          (by
            rw [hr2]
            intro en hen c hc
            rcases List.mem_append.mp hen with h | h
            · exact hfresh en h c (List.mem_cons_of_mem _ hc)
            · have heq : en = (sid, t) := by simpa using h
              subst heq
              intro hcontra
              apply hsidfresh
              have hmem : c.1 ∈ List.map Prod.fst rest :=
                List.mem_map.mpr ⟨c, hc, rfl⟩
              simpa [← hcontra] using hmem)
          hnodup'
          (fun a ha b hb =>
            hspan a (List.mem_cons_of_mem _ ha) b (List.mem_cons_of_mem _ hb))
          (by
            rw [hr2]
            simp only [List.length_append, List.length_cons, List.length_nil]
            omega)
        rw [hr2] at ihres
        simp only [List.length_append, List.length_cons, List.length_nil] at ihres
        obtain ⟨iha, ihb, ihc⟩ := ihres
        refine ⟨?_, ?_, ?_⟩
        · rw [hrun]
          simp only [List.countP_cons, hr1, iha, List.length_cons]
          norm_num
          omega
        · rw [hrun]
          simp only [List.countP_cons, hr1, ihb, List.length_cons]
          norm_num
          omega
        · rw [hrun]
          simp only [List.length_cons, ihc]
          omega

theorem selectWeightedGo_mem :
    ∀ (l : List ResolvedEndpoint) (r : Rat) (ep : ResolvedEndpoint),
      selectWeightedGo r l = some ep → ep ∈ l := by
  intro l
  induction l with
  | nil => intro r ep h; simp [selectWeightedGo] at h
  | cons x xs ih =>
      intro r ep h
      by_cases hx : r - (x.weight : Rat) ≤ 0
      · simp only [selectWeightedGo, if_pos hx, Option.some.injEq] at h
        rw [← h]
        exact List.mem_cons_self _ _
      · simp only [selectWeightedGo, if_neg hx] at h
        exact List.mem_cons_of_mem _ (ih _ _ h)

/-- C5: for a non-sentinel endpoint (id ≠ 0) starting from a zero failure
streak, three consecutive `recordFailure` calls yield degraded, degraded,
unhealthy and persist streaks 1, 2, 3; in general one failure means
degraded and three or more mean unhealthy; and `recordSuccess` persists a
zero streak with status healthy. -/
theorem c5_health_state_machine (endpointId : Int) (h : endpointId ≠ 0)
    (n1 n2 n3 n4 : Int) (cf : Int) (hcf : 0 ≤ cf) :
    (recordFailure endpointId 0 n1).1 = EndpointHealthStatus.degraded ∧
    (recordFailure endpointId 0 n1).2 =
      some ⟨1, EndpointHealthStatus.degraded, n1⟩ ∧
    (recordFailure endpointId 1 n2).1 = EndpointHealthStatus.degraded ∧
    (recordFailure endpointId 1 n2).2 =
      some ⟨2, EndpointHealthStatus.degraded, n2⟩ ∧
    (recordFailure endpointId 2 n3).1 = EndpointHealthStatus.unhealthy ∧
    (recordFailure endpointId 2 n3).2 =
      some ⟨3, EndpointHealthStatus.unhealthy, n3⟩ ∧
    ((recordFailure endpointId cf n1).1 = EndpointHealthStatus.unhealthy ↔
      3 ≤ cf + 1) ∧
    ((recordFailure endpointId cf n1).1 = EndpointHealthStatus.degraded ↔
      (1 ≤ cf + 1 ∧ cf + 1 < 3)) ∧
    recordSuccess endpointId n4 =
      some ⟨0, EndpointHealthStatus.healthy, n4⟩ := by
  have base : ∀ (c n : Int), recordFailure endpointId c n =
      (if c + 1 ≥ 3 then EndpointHealthStatus.unhealthy
       else if c + 1 ≥ 1 then EndpointHealthStatus.degraded
       else EndpointHealthStatus.healthy,
       some ⟨c + 1,
         if c + 1 ≥ 3 then EndpointHealthStatus.unhealthy
         else if c + 1 ≥ 1 then EndpointHealthStatus.degraded
         else EndpointHealthStatus.healthy, n⟩) := by
    intro c n
    unfold recordFailure
    rw [if_neg h]
  refine ⟨?_, ?_, ?_, ?_, ?_, ?_, ?_, ?_, ?_⟩
  · rw [base]; norm_num
  · rw [base]; norm_num
  · rw [base]; norm_num
  · rw [base]; norm_num
  · rw [base]; norm_num
  · rw [base]; norm_num
  · rw [base]
    by_cases hc3 : 3 ≤ cf + 1
    · simp [hc3]
    · have h1 : 1 ≤ cf + 1 := by omega
      simp [hc3, h1]
  · rw [base]
    by_cases hc3 : 3 ≤ cf + 1
    · simp only [ge_iff_le, if_pos hc3]
      constructor
      · intro hcontra; cases hcontra
      · intro hcontra; omega
    · have h1 : 1 ≤ cf + 1 := by omega
      simp only [ge_iff_le, if_neg hc3, if_pos h1]
      constructor
      · intro _; exact ⟨h1, by omega⟩
      · intro _; trivial
  · unfold recordSuccess
    rw [if_neg h]

theorem c5_health_state_machine_witness :
    (recordFailure 1 0 7).1 = EndpointHealthStatus.degraded ∧
    recordSuccess 1 9 = some ⟨0, EndpointHealthStatus.healthy, 9⟩ := by
  have h := c5_health_state_machine 1 (by decide) 7 0 0 9 0 (by decide)
  exact ⟨h.1, h.2.2.2.2.2.2.2.2⟩

/-- C9: a rolling-window `GET` (5h and daily) is idempotent — run twice at
the same `now` and window with no intervening track, both calls report the
same total. -/
theorem c9_get_idempotent (s : Store) (key : String) (now windowMs : Int) :
    (getCost5hRollingWindow (getCost5hRollingWindow s key now windowMs).2
        key now windowMs).1
      = (getCost5hRollingWindow s key now windowMs).1 ∧
    (getCostDailyRollingWindow (getCostDailyRollingWindow s key now windowMs).2
        key now windowMs).1
      = (getCostDailyRollingWindow s key now windowMs).1 := by
  constructor
  · rw [getCost5h_fst, getCost5h_fst, getCost5h_snd, filter_trim_idem]
  · rw [getCostDaily_fst, getCostDaily_fst, getCostDaily_snd, filter_trim_idem]

/-- C10: `selectWeighted` is total on every non-empty endpoint list with
weights ≥ 1 — for every draw `r ∈ [0, Σweight)` the cumulative-subtraction
walk (with its trailing last-element fallback) returns some element of the
input list, never `undefined`. -/
theorem c10_weighted_total (endpoints : List ResolvedEndpoint) (r : Rat)
    (hne : endpoints ≠ [])
    (hw : ∀ ep ∈ endpoints, 1 ≤ ep.weight)
    (hr0 : 0 ≤ r)
    (hrlt : r < ((endpoints.map (fun ep => (ep.weight : Rat))).sum)) :
    ∃ ep ∈ endpoints, selectWeighted endpoints r = some ep := by
  unfold selectWeighted
  cases hgo : selectWeightedGo r endpoints with
  | some ep => exact ⟨ep, selectWeightedGo_mem _ _ _ hgo, rfl⟩
  | none =>
      refine ⟨endpoints.getLast hne, List.getLast_mem hne, ?_⟩
      rw [List.getLast?_eq_getLast_of_ne_nil hne]

theorem c10_weighted_total_witness :
    ∃ ep ∈ [c10Endpoint], selectWeighted [c10Endpoint] 0 = some ep :=
  c10_weighted_total [c10Endpoint] 0 (by simp)
    (by
      intro ep hep
      simp only [List.mem_singleton] at hep
      rw [hep]
      decide)
    (by norm_num)
    (by norm_num [c10Endpoint])

/-- C6: with multi-endpoint mode on and the failover strategy (explicit or
by default), `selectEndpoint` returns `none` exactly when no endpoint
passes the `isEnabled ∧ healthStatus ≠ unhealthy ∧ id ∉ exclusions`
filter, and otherwise returns a filtered endpoint of minimum priority; for
healthy endpoints with priorities [5,1,3] it picks priority 1, and with
the priority-1 endpoint excluded it picks priority 3. -/
theorem c6_failover_selection :
    (∀ (provider : ProviderRec) (eps : List ProviderEndpoint)
        (excl : List Int) (rnd : RandomInput),
      provider.useMultipleEndpoints = true →
      provider.endpointSelectionStrategy.getD EndpointSelectionStrategy.failover
          = EndpointSelectionStrategy.failover →
      ((selectEndpoint provider eps excl rnd = none ↔
          availableEndpoints provider eps excl = []) ∧
        ∀ res, selectEndpoint provider eps excl rnd = some res →
          res ∈ availableEndpoints provider eps excl ∧
          ∀ other ∈ availableEndpoints provider eps excl,
            res.priority ≤ other.priority)) ∧
    ((selectEndpoint c6Provider c6Endpoints [] ⟨0, 0⟩).map
        (fun r => r.priority) = some 1) ∧
    ((selectEndpoint c6Provider c6Endpoints [2] ⟨0, 0⟩).map
        (fun r => r.priority) = some 3) := by
  refine ⟨?_, by decide, by decide⟩
  intro provider eps excl rnd hmulti hstrat
  by_cases hav : availableEndpoints provider eps excl = []
  · have hsel : selectEndpoint provider eps excl rnd = none := by
      simp [selectEndpoint, hmulti, hav]
    constructor
    · simp [hsel, hav]
    · intro res hres
      rw [hsel] at hres
      cases hres
  · have hlen0 : ¬ (availableEndpoints provider eps excl).length = 0 := by
      simpa [List.length_eq_zero] using hav
    have hsel : selectEndpoint provider eps excl rnd =
        selectFailover (availableEndpoints provider eps excl) := by
      simp [selectEndpoint, hmulti, hstrat, hlen0]
    rw [hsel]
    cases hS : jsSortBy (fun ep : ResolvedEndpoint => ep.priority)
        (availableEndpoints provider eps excl) with
    | nil =>
        exfalso
        apply hlen0
        have := length_jsSortBy (fun ep : ResolvedEndpoint => ep.priority)
          (availableEndpoints provider eps excl)
        rw [hS] at this
        simpa using this.symm
    | cons top rest =>
        have hsorted := jsSortBy_sorted (fun ep : ResolvedEndpoint => ep.priority)
          (availableEndpoints provider eps excl)
        rw [hS] at hsorted
        constructor
        · constructor
          · intro hcontra
            unfold selectFailover at hcontra
            rw [hS] at hcontra
            cases hcontra
          · intro h; exact absurd h hav
        · intro res hres
          unfold selectFailover at hres
          rw [hS] at hres
          have hrtop : res = top := by
            simpa [List.head?] using hres.symm
          subst hrtop
          constructor
          · have hmemS : res ∈ jsSortBy (fun ep : ResolvedEndpoint => ep.priority)
                (availableEndpoints provider eps excl) := by
              rw [hS]; exact List.mem_cons_self _ _
            exact (mem_jsSortBy _ _ _).mp hmemS
          · intro other hother
            have hmem : other ∈ res :: rest := by
              rw [← hS]
              exact (mem_jsSortBy _ _ _).mpr hother
            exact sorted_head_min _ res rest hsorted other hmem

theorem jsParseFloat_15 : jsParseFloat "1.5" = 3 / 2 := by
  have h : jsParseFloat "1.5" =
      ((1 : Nat) : Rat) + ((5 : Nat) : Rat) / ((10 : Rat) ^ (1 : Nat)) := rfl
  rw [h]
  norm_num

theorem jsParseFloat_20 : jsParseFloat "2.0" = 2 := by
  have h : jsParseFloat "2.0" =
      ((2 : Nat) : Rat) + ((0 : Nat) : Rat) / ((10 : Rat) ^ (1 : Nat)) := rfl
  rw [h]
  norm_num

theorem c7_matched : matchedRules c7Rules c7Ctx = [c7RuleModel, c7RuleTime] := by
  decide

theorem c7_sorted :
    jsSortBy (fun r : ProviderCostRule => -r.priority) [c7RuleModel, c7RuleTime]
      = [c7RuleTime, c7RuleModel] := by decide

/-- C7: `calculateFinalMultiplier` returns `baseMultiplier × combinedFactor`
— factor 1 when no enabled rule matches, the product of all matched
multipliers under `multiply`, the greatest-priority matched rule's
multiplier under `highest_priority`; for the model rule 1.5/prio 1 and the
22:00–06:00 rule 2.0/prio 2 at model "claude-3-5-sonnet", 23:00 local,
`multiply` yields base×3.0 and `highest_priority` base×2.0. -/
theorem c7_cost_multiplier :
    (∀ (base : Rat) (rules : List ProviderCostRule)
        (ctx : CostMultiplierContext) (strategy : CostMultiplierStrategy),
      matchedRules rules ctx = [] →
      (calculateFinalMultiplier base rules ctx strategy).finalMultiplier = base) ∧
    (∀ (base : Rat) (rules : List ProviderCostRule) (ctx : CostMultiplierContext),
      (calculateFinalMultiplier base rules ctx
          CostMultiplierStrategy.multiply).finalMultiplier
        = base *
            ((matchedRules rules ctx).map (fun r => jsParseFloat r.multiplier)).prod) ∧
    (∀ (base : Rat) (rules : List ProviderCostRule) (ctx : CostMultiplierContext),
      matchedRules rules ctx ≠ [] →
      ∃ topRule ∈ matchedRules rules ctx,
        (∀ other ∈ matchedRules rules ctx, other.priority ≤ topRule.priority) ∧
        (calculateFinalMultiplier base rules ctx
            CostMultiplierStrategy.highest_priority).finalMultiplier
          = base * jsParseFloat topRule.multiplier) ∧
    (∀ base : Rat,
      (calculateFinalMultiplier base c7Rules c7Ctx
          CostMultiplierStrategy.multiply).finalMultiplier = base * 3 ∧
      (calculateFinalMultiplier base c7Rules c7Ctx
          CostMultiplierStrategy.highest_priority).finalMultiplier = base * 2) := by
  refine ⟨?_, ?_, ?_, ?_⟩
  · intro base rules ctx strategy hm
    simp [calculateFinalMultiplier, hm]
  · intro base rules ctx
    by_cases hm : matchedRules rules ctx = []
    · simp [calculateFinalMultiplier, hm]
    · have hne : (matchedRules rules ctx).isEmpty = false := by
        simpa [List.isEmpty_iff] using hm
      simp only [calculateFinalMultiplier, hne, Bool.false_eq_true, if_false]
      rw [if_neg (by decide :
        ¬ (CostMultiplierStrategy.multiply = CostMultiplierStrategy.highest_priority))]
      rw [List.prod_eq_foldl, List.foldl_map]
  · intro base rules ctx hm
    have hne : (matchedRules rules ctx).isEmpty = false := by
      simpa [List.isEmpty_iff] using hm
    cases hS : jsSortBy (fun r : ProviderCostRule => -r.priority)
        (matchedRules rules ctx) with
    | nil =>
        exfalso
        apply hm
        have := length_jsSortBy (fun r : ProviderCostRule => -r.priority)
          (matchedRules rules ctx)
        rw [hS] at this
        exact List.length_eq_zero.mp this.symm
    | cons top rest =>
        have hsorted := jsSortBy_sorted (fun r : ProviderCostRule => -r.priority)
          (matchedRules rules ctx)
        rw [hS] at hsorted
        refine ⟨top, ?_, ?_, ?_⟩
        · have hmemS : top ∈ jsSortBy (fun r : ProviderCostRule => -r.priority)
              (matchedRules rules ctx) := by
            rw [hS]; exact List.mem_cons_self _ _
          exact (mem_jsSortBy _ _ _).mp hmemS
        · intro other hother
          have hmem : other ∈ top :: rest := by
            rw [← hS]
            exact (mem_jsSortBy _ _ _).mpr hother
          have := sorted_head_min _ top rest hsorted other hmem
          omega
        · simp only [calculateFinalMultiplier, hne, Bool.false_eq_true, if_false,
            if_pos rfl]
          rw [hS]
          simp
  · intro base
    have hA : jsParseFloat c7RuleModel.multiplier = 3 / 2 := by
      rw [show c7RuleModel.multiplier = "1.5" from rfl]
      exact jsParseFloat_15
    have hB : jsParseFloat c7RuleTime.multiplier = 2 := by
      rw [show c7RuleTime.multiplier = "2.0" from rfl]
      exact jsParseFloat_20
    constructor
    · simp only [calculateFinalMultiplier, c7_matched]
      rw [if_neg (by decide : ¬ (([c7RuleModel, c7RuleTime] :
        List ProviderCostRule).isEmpty = true))]
      rw [if_neg (by decide :
        ¬ (CostMultiplierStrategy.multiply = CostMultiplierStrategy.highest_priority))]
      simp only [List.foldl_cons, List.foldl_nil]
      rw [hA, hB]
      ring
    · simp only [calculateFinalMultiplier, c7_matched]
      rw [if_neg (by decide : ¬ (([c7RuleModel, c7RuleTime] :
        List ProviderCostRule).isEmpty = true))]
      rw [c7_sorted]
      simp only [if_true, reduceIte]
      rw [hB]

theorem status_checkAndTrack (s : Store) (key sid : String) (limit now : Int) :
    (checkAndTrackSession s key sid limit now).2.status = s.status := by
  simp only [checkAndTrackSession]
  split
  · rw [status_zrem]
  · split
    · rw [status_zadd, status_zrem]
    · rw [status_zadd, status_zrem]

theorem checkAndTrack_rejected_untracked (s : Store) (key sid : String)
    (limit now : Int)
    (h : (checkAndTrackSession s key sid limit now).1.allowed = false) :
    (checkAndTrackSession s key sid limit now).1.tracked = false := by
  simp only [checkAndTrackSession] at h ⊢
  split at h
  · split
    · rfl
    · simp_all
  · split at h <;> simp_all

theorem providerStep_eq (s : Store) (pid : Int) (sid : String) (limit now : Int)
    (hready : s.status = StoreStatus.ready) (hlim : 0 < limit) :
    checkAndTrackProviderSession (some s) pid sid limit now =
      ({ allowed := (checkAndTrackSession s (providerSessionKey pid) sid limit now).1.allowed,
         count := (checkAndTrackSession s (providerSessionKey pid) sid limit now).1.currentCount,
         tracked := (checkAndTrackSession s (providerSessionKey pid) sid limit now).1.tracked,
         reason :=
           if (checkAndTrackSession s (providerSessionKey pid) sid limit now).1.allowed
           then none else some "provider session limit reached" },
       some (checkAndTrackSession s (providerSessionKey pid) sid limit now).2) := by
  have hnotle : ¬ limit ≤ 0 := by omega
  have hrdy : ¬ ¬ (s.status = StoreStatus.ready) := by simp [hready]
  simp only [checkAndTrackProviderSession, if_neg hnotle, if_neg hrdy]
  by_cases hall : (checkAndTrackSession s (providerSessionKey pid) sid limit now).1.allowed = true
  · rw [if_neg (by simp [hall])]
    simp [hall]
  · have hfalse : (checkAndTrackSession s (providerSessionKey pid) sid limit now).1.allowed = false := by
      simpa using hall
    have htr := checkAndTrack_rejected_untracked s (providerSessionKey pid) sid limit now hfalse
    rw [if_pos (by simp [hall])]
    simp [hfalse, htr]

theorem runProviderCalls_eq (pid : Int) (limit : Int) (hlim : 0 < limit) :
    ∀ (calls : List (String × Int)) (s : Store),
      s.status = StoreStatus.ready →
      (runProviderCalls pid limit (some s) calls).1.map
          (fun r => (r.allowed, r.tracked)) =
        (runCheckTrack (providerSessionKey pid) limit s calls).1.map
          (fun r => (r.allowed, r.tracked)) ∧
      (runProviderCalls pid limit (some s) calls).2 =
        some (runCheckTrack (providerSessionKey pid) limit s calls).2 := by
  intro calls
  induction calls with
  | nil => intro s _; exact ⟨rfl, rfl⟩
  | cons c rest ih =>
      intro s hready
      have hstep := providerStep_eq s pid c.1 limit c.2 hready hlim
      have hsts : (checkAndTrackSession s (providerSessionKey pid) c.1 limit c.2).2.status
          = StoreStatus.ready := by
        rw [status_checkAndTrack]; exact hready
      obtain ⟨ih1, ih2⟩ := ih (checkAndTrackSession s (providerSessionKey pid) c.1 limit c.2).2 hsts
      have hrunP : runProviderCalls pid limit (some s) (c :: rest) =
          ((checkAndTrackProviderSession (some s) pid c.1 limit c.2).1 ::
              (runProviderCalls pid limit
                (checkAndTrackProviderSession (some s) pid c.1 limit c.2).2 rest).1,
            (runProviderCalls pid limit
              (checkAndTrackProviderSession (some s) pid c.1 limit c.2).2 rest).2) := rfl
      have hrunS : runCheckTrack (providerSessionKey pid) limit s (c :: rest) =
          ((checkAndTrackSession s (providerSessionKey pid) c.1 limit c.2).1 ::
              (runCheckTrack (providerSessionKey pid) limit
                (checkAndTrackSession s (providerSessionKey pid) c.1 limit c.2).2 rest).1,
            (runCheckTrack (providerSessionKey pid) limit
              (checkAndTrackSession s (providerSessionKey pid) c.1 limit c.2).2 rest).2) := rfl
      constructor
      · rw [hrunP, hstep, hrunS]
        simp only [List.map_cons]
        rw [ih1]
      · rw [hrunP, hstep, hrunS]
        exact ih2

/-- C2: against an initially empty provider session set on a ready store,
N+1 admission calls with distinct session ids, all inside the 5-minute
liveness window, admit exactly N (allowed and tracked) and reject exactly
1; the provider's sorted set never holds more than N members. -/
theorem c2_atomic_admission (N : Nat) (hN : 0 < N) (pid : Int)
    (calls : List (String × Int)) (s0 : Store)
    (hlen : calls.length = N + 1)
    (hready : s0.status = StoreStatus.ready)
    (hempty : zentries s0 (providerSessionKey pid) = [])
    (hnodup : (calls.map Prod.fst).Nodup)
    (hspan : ∀ a ∈ calls, ∀ b ∈ calls, b.2 - 300000 < a.2) :
    ((runProviderCalls pid (N : Int) (some s0) calls).1.countP
        (fun r => r.allowed && r.tracked) = N) ∧
    ((runProviderCalls pid (N : Int) (some s0) calls).1.countP
        (fun r => !r.allowed) = 1) ∧
    (∀ k, (zentries (runCheckTrack (providerSessionKey pid) (N : Int) s0
        (calls.take k)).2 (providerSessionKey pid)).length ≤ N) := by
  have hNI : (0 : Int) < (N : Int) := by exact_mod_cast hN
  have heq := runProviderCalls_eq pid (N : Int) hNI calls s0 hready
  have hspec := runCheckTrack_spec (providerSessionKey pid) N hN calls s0
    (by rw [hempty]; intro en hen; cases hen)
    (by rw [hempty]; intro en hen; cases hen)
    hnodup hspan (by rw [hempty]; simp)
  rw [hempty] at hspec
  simp only [List.length_nil, Nat.sub_zero, Nat.zero_add] at hspec
  obtain ⟨hs1, hs2, _⟩ := hspec
  have htransfer : ∀ (p : Bool × Bool → Bool),
      (runProviderCalls pid (N : Int) (some s0) calls).1.countP
          (fun r => p (r.allowed, r.tracked)) =
        (runCheckTrack (providerSessionKey pid) (N : Int) s0 calls).1.countP
          (fun r => p (r.allowed, r.tracked)) := by
    intro p
    have h1 : ((runProviderCalls pid (N : Int) (some s0) calls).1.map
        (fun r => (r.allowed, r.tracked))).countP p =
        (runProviderCalls pid (N : Int) (some s0) calls).1.countP
          (fun r => p (r.allowed, r.tracked)) := by
      rw [List.countP_map]
      rfl
    have h2 : ((runCheckTrack (providerSessionKey pid) (N : Int) s0 calls).1.map
        (fun r => (r.allowed, r.tracked))).countP p =
        (runCheckTrack (providerSessionKey pid) (N : Int) s0 calls).1.countP
          (fun r => p (r.allowed, r.tracked)) := by
      rw [List.countP_map]
      rfl
    rw [← h1, ← h2, heq.1]
  refine ⟨?_, ?_, ?_⟩
  · have := htransfer (fun pr => pr.1 && pr.2)
    rw [show (fun r : ProviderSessionResult => r.allowed && r.tracked) =
      (fun r : ProviderSessionResult =>
        (fun pr : Bool × Bool => pr.1 && pr.2) (r.allowed, r.tracked)) from rfl]
    rw [this]
    rw [show (fun r : SessionTrackResult =>
        (fun pr : Bool × Bool => pr.1 && pr.2) (r.allowed, r.tracked)) =
      (fun r : SessionTrackResult => r.allowed && r.tracked) from rfl]
    rw [hs1, hlen]
    omega
  · have := htransfer (fun pr => !pr.1)
    rw [show (fun r : ProviderSessionResult => !r.allowed) =
      (fun r : ProviderSessionResult =>
        (fun pr : Bool × Bool => !pr.1) (r.allowed, r.tracked)) from rfl]
    rw [this]
    rw [show (fun r : SessionTrackResult =>
        (fun pr : Bool × Bool => !pr.1) (r.allowed, r.tracked)) =
      (fun r : SessionTrackResult => !r.allowed) from rfl]
    rw [hs2, hlen]
    omega
  · intro k
    have hpre := runCheckTrack_spec (providerSessionKey pid) N hN (calls.take k) s0
      (by rw [hempty]; intro en hen; cases hen)
      (by rw [hempty]; intro en hen; cases hen)
      (by
        rw [List.map_take]
        exact hnodup.sublist (List.take_sublist _ _))
      (fun a ha b hb =>
        hspan a (List.take_subset _ _ ha) b (List.take_subset _ _ hb))
      (by rw [hempty]; simp)
    rw [hempty] at hpre
    have := hpre.2.2
    omega

theorem c2_atomic_admission_witness :
    ((runProviderCalls 1 ((1 : Nat) : Int) (some emptyStore)
        [("a", 0), ("b", 0)]).1.countP (fun r => r.allowed && r.tracked) = 1) ∧
    ((runProviderCalls 1 ((1 : Nat) : Int) (some emptyStore)
        [("a", 0), ("b", 0)]).1.countP (fun r => !r.allowed) = 1) := by
  have h := c2_atomic_admission 1 (by decide) 1 [("a", 0), ("b", 0)] emptyStore
    (by decide) rfl rfl (by decide) (by decide)
  exact ⟨h.1, h.2.1⟩

/-! ### Claim C1: rolling-window boundary -/
/-- C1 counterexample: a cost of 5 tracked at timestamp `now − windowMs`
exactly (here `t = 0`, `now = 18000000`) is dropped by the trim, so the
read at `now` returns the string total `"0"`, not `"5"`: the event on the
window boundary is excluded, while the claim includes scores
`≥ now − windowMs` in the window. -/
theorem c1_counterexample :
    (trackCost5hRollingWindow emptyStore "key:1:cost_5h_rolling" 5 0 18000000).1
      = "5" ∧
    jsParseFloatInt
      (getCost5hRollingWindow
        (trackCost5hRollingWindow emptyStore "key:1:cost_5h_rolling" 5 0 18000000).2
        "key:1:cost_5h_rolling" 18000000 18000000).1 = 0 := by decide

/-- C1 (amended): after tracking a strictly time-ordered batch of events
into an initially absent key, `GET_COST_5H_ROLLING_WINDOW` at `now`
returns exactly the sum of the costs of the events with
`now − 18000000 < t` (strict: the event at `t = now − 18000000` is
excluded, all later ones up to `now` are included). -/
theorem c1_window_correct (key : String) (now : Int)
    (events : List (Int × Int)) (s0 : Store)
    (h0 : zentries s0 key = [])
    (hpair : List.Pairwise (fun a b => a.1 < b.1) events)
    (hle : ∀ e ∈ events, e.1 ≤ now) :
    jsParseFloatInt
      (getCost5hRollingWindow (foldTrack key 18000000 s0 events) key now 18000000).1
      = ((events.filter (fun e => decide (now - 18000000 < e.1))).map
          (fun e => e.2)).sum :=
  foldTrack_get_sum key 18000000 now events s0 h0 hpair hle

theorem c1_window_correct_witness :
    jsParseFloatInt
      (getCost5hRollingWindow
        (foldTrack "k" 18000000 emptyStore [(0, 5), (1, 7)]) "k" 18000000 18000000).1
      = 7 := by
  have h := c1_window_correct "k" 18000000 [(0, 5), (1, 7)] emptyStore rfl
    (by decide) (by decide)
  rw [h]
  decide

/-- C3: `InMemoryStore.exists` consults only the string map, never the
ZSET store, so the fast path cannot tell a genuine zero from a cache
miss. On `c3Store` the 5h rolling key is present with a genuine total of
0 (live member `"100:0"` = cost 0 tracked at 100), yet `existsKey`
returns 0, so `checkCostLimits` falls back to the durable aggregate and
rejects — the claim's "only when the key is absent" branch is
unreachable for ZSET-backed windows. -/
theorem c3_cache_zero_fallback :
    encodeMember 100 0 = "100:0" ∧
    zentries c3Store "key:1:cost_5h_rolling" = [("100:0", 100)] ∧
    jsParseFloatInt
      (getCost5hRollingWindow c3Store "key:1:cost_5h_rolling" 200 window5h).1 = 0 ∧
    Store.existsKey c3Store "key:1:cost_5h_rolling" 200 = 0 ∧
    (checkCostLimits (some c3Store) (fun _ => 100) (fun _ => 60) "key" 1
        limits5hOnly 200).1
      = { allowed := false, reason := some "5h" } := by decide

/-! ### Claim C4: fail-open on unavailable store -/
/-- C4 counterexample: with the cache client absent and a durable 5h
aggregate of 100 against a limit of 10, `checkCostLimits` returns
`allowed := false` — the service does not fail open to `allowed: true`
on every cost check as claimed. -/
theorem c4_counterexample :
    (checkCostLimits none (fun _ => 100) (fun _ => 60) "key" 1
        limits5hOnly 200).1
      = { allowed := false, reason := some "5h" } := by decide

theorem checkFromDb_allowed_iff (db ttl : CostPeriod → Int) (tyStr : String)
    (id : Int) (now : Int) :
    ∀ (client : Option Store) (ls : List CostLimit),
      ((checkCostLimitsFromDatabase db ttl tyStr id now client ls).1.allowed = true ↔
        ∀ l ∈ ls, 0 < l.amount.getD 0 → db l.period < l.amount.getD 0) := by
  intro client ls
  induction ls generalizing client with
  | nil => simp [checkCostLimitsFromDatabase]
  | cons l rest ih =>
      simp only [checkCostLimitsFromDatabase]
      by_cases h1 : l.amount.getD 0 ≤ 0
      · rw [if_pos h1, ih client]
        constructor
        · intro h l' hl' hpos
          rcases List.mem_cons.mp hl' with heq | hmem
          · subst heq; omega
          · exact h l' hmem hpos
        · intro h l' hl' hpos
          exact h l' (List.mem_cons_of_mem _ hl') hpos
      · rw [if_neg h1]
        by_cases h2 : db l.period ≥ l.amount.getD 0
        · rw [if_pos h2]
          constructor
          · intro h; exact absurd h (by simp)
          · intro h
            have := h l (List.mem_cons_self _ _) (by omega)
            omega
        · rw [if_neg h2]
          rw [ih _]
          constructor
          · intro h l' hl' hpos
            rcases List.mem_cons.mp hl' with heq | hmem
            · subst heq; omega
            · exact h l' hmem hpos
          · intro h l' hl' hpos
            exact h l' (List.mem_cons_of_mem _ hl') hpos

/-- C4 (amended): when the cache client is missing or not ready, the
session-limit check `checkAndTrackProviderSession` does fail open to
`allowed := true`, but `checkCostLimits` instead degrades to the
durable-storage check, which allows exactly when every configured
positive limit strictly exceeds its durable aggregate — and may
therefore reject. -/
theorem c4_fail_open (client : Option Store) (db ttl : CostPeriod → Int)
    (tyStr : String) (id : Int) (limits : LimitsInput) (now : Int)
    (pid : Int) (sid : String) (limit : Int)
    (hun : ∀ s, client = some s → ¬ (s.status = StoreStatus.ready)) :
    (checkAndTrackProviderSession client pid sid limit now).1.allowed = true ∧
    checkCostLimits client db ttl tyStr id limits now =
      checkCostLimitsFromDatabase db ttl tyStr id now client (buildCostLimits limits) ∧
    ((checkCostLimits client db ttl tyStr id limits now).1.allowed = true ↔
      ∀ l ∈ buildCostLimits limits, 0 < l.amount.getD 0 →
        db l.period < l.amount.getD 0) := by
  have heq : checkCostLimits client db ttl tyStr id limits now =
      checkCostLimitsFromDatabase db ttl tyStr id now client (buildCostLimits limits) := by
    unfold checkCostLimits
    cases client with
    | none => rfl
    | some s =>
        simp only
        rw [if_neg (hun s rfl)]
  refine ⟨?_, heq, ?_⟩
  · unfold checkAndTrackProviderSession
    by_cases hl : limit ≤ 0
    · rw [if_pos hl]
    · rw [if_neg hl]
      cases client with
      | none => rfl
      | some s =>
          simp only
          rw [if_pos (hun s rfl)]
  · rw [heq]
    exact checkFromDb_allowed_iff db ttl tyStr id now client (buildCostLimits limits)

theorem c4_fail_open_witness :
    (checkAndTrackProviderSession none 1 "s" 5 0).1.allowed = true ∧
    ((checkCostLimits none (fun _ => (0 : Int)) (fun _ => (0 : Int)) "key" 1
        limits5hOnly 0).1.allowed = true ↔
      ∀ l ∈ buildCostLimits limits5hOnly, 0 < l.amount.getD 0 →
        (0 : Int) < l.amount.getD 0) := by
  have h := c4_fail_open none (fun _ => (0 : Int)) (fun _ => (0 : Int)) "key" 1
    limits5hOnly 0 1 "s" 5 (fun s hs => Option.noConfusion hs)
  exact ⟨h.1, h.2.2⟩

/-! ### Claim C8: the 1-hour session TTL backstop -/
/-- C8: `InMemoryStore.expire` consults only the string map, so the two
`expire(…, 3600)` commands issued by `SessionTracker.trackSession` on the
ZSET-backed session sets both return 0 and record nothing: after tracking
a session on a fresh ready store, both session sets hold the member with
no expiry state anywhere (the string map stays empty, and ZSET entries
carry no TTL at all in the store), so the claimed 1-hour backstop never
evicts anything. -/
theorem c8_ttl_noop :
    (trackSession (some emptyStore) "s1" 1 1000).1 = [1, 0, 1, 0] ∧
    ((trackSession (some emptyStore) "s1" 1 1000).2.map
        (fun s => (zentries s "global:active_sessions",
                   zentries s (keyActiveSessionsKey 1),
                   Store.zcard s "global:active_sessions", s.strs)))
      = some ([("s1", 1000)], [("s1", 1000)], 1, []) := by decide

end Hub
